import Mathlib

/-!
# Verification of the KeyBridge relay client

This development is a shallow embedding of the `KeyBridgeClient` class
(`src/dev/mockDataLoader.ts`, concatenated third document, lines 188-702)
of the `dev-b24-vue` repository, together with proofs of the specification
claims about it.

Modelling choices:

* The client is single-threaded, event-loop driven.  We model it as a
  state machine: the synchronous code between two suspension points
  (`await`s) is one atomic step.  A batch round is split into its
  synchronous prefix (`processIfNeeded` up to the network `await` inside
  `processBatch`) and its completion (`handleBatchResponse` resp.
  `handleBatchError` followed by the `finally` that clears `processing`).
  In-flight rounds are recorded in the state (field `inflight`), so that
  several rounds can be outstanding when the real code would allow it.
* `requestKey`s are modelled as naturals drawn from a fresh counter
  (`nextKey`); the source generates them from the clock plus a random
  suffix and relies on their uniqueness.
* Promise settlement is tracked in the state: `settled` records, for every
  requestKey whose caller promise has been resolved or rejected, the first
  settlement (later settlements of an already settled JS promise are
  no-ops, which `settlePut` reproduces).
* JS `Map`s are association lists with `Map.set` semantics (`mapSet`),
  JS `Set`s of strings are duplicate-free lists (`setAdd`); both preserve
  insertion order like their JS counterparts.
* JSON/JS numbers are modelled as integers; non-integral number literals
  appearing inside parsed result payloads are kept as raw text
  (`Value.vNumRaw`).  No claim in scope involves non-integral numbers.
* Listener notification (`notifyStateChange`) has no effect on the
  client's own state and is not modelled.
-/

namespace KeyBridge

/-- JSON values, the model of the `unknown` data travelling on the wire.
Integral numbers are `vNum`; a non-integral JSON number literal is kept
verbatim in `vNumRaw`. -/
inductive Value where
  | vNull
  | vBool (b : Bool)
  | vNum (n : Int)
  | vNumRaw (raw : String)
  | vStr (s : String)
  | vArr (elems : List Value)
  | vObj (fields : List (String × Value))

/-- Model of JS `JSON.parse`: skip whitespace. -/
def skipWs : List Char → List Char
  | c :: cs => if c = ' ' ∨ c = '\t' ∨ c = '\n' ∨ c = '\r' then skipWs cs else c :: cs
  | [] => []

def hexVal (c : Char) : Option Nat :=
  if '0' ≤ c ∧ c ≤ '9' then some (c.toNat - '0'.toNat)
  else if 'a' ≤ c ∧ c ≤ 'f' then some (c.toNat - 'a'.toNat + 10)
  else if 'A' ≤ c ∧ c ≤ 'F' then some (c.toNat - 'A'.toNat + 10)
  else none

/-- Parse the body of a JSON string (the opening quote already consumed).
`fuel` bounds the recursion. -/
def parseStringRest : Nat → List Char → Option (String × List Char)
  | 0, _ => none
  | _, [] => none
  | fuel + 1, c :: cs =>
    if c = '"' then some ("", cs)
    else if c = '\\' then
      match cs with
      | [] => none
      | e :: cs2 =>
        let esc : Option (Char × List Char) :=
          if e = '"' then some ('"', cs2)
          else if e = '\\' then some ('\\', cs2)
          else if e = '/' then some ('/', cs2)
          else if e = 'b' then some ('\x08', cs2)
          else if e = 'f' then some ('\x0c', cs2)
          else if e = 'n' then some ('\n', cs2)
          else if e = 'r' then some ('\r', cs2)
          else if e = 't' then some ('\t', cs2)
          else if e = 'u' then
            match cs2 with
            | h1 :: h2 :: h3 :: h4 :: cs3 =>
              match hexVal h1, hexVal h2, hexVal h3, hexVal h4 with
              | some a, some b, some c2, some d =>
                some (Char.ofNat (((a * 16 + b) * 16 + c2) * 16 + d), cs3)
              | _, _, _, _ => none
            | _ => none
          else none
        match esc with
        | none => none
        | some (ch, rest) =>
          (parseStringRest fuel rest).map (fun p => (⟨ch :: p.1.data⟩, p.2))
    else if c.toNat < 0x20 then none
    else (parseStringRest fuel cs).map (fun p => (⟨c :: p.1.data⟩, p.2))

/-- Longest prefix of decimal digits. -/
def parseDigits : List Char → (List Char × List Char)
  | [] => ([], [])
  | c :: cs =>
    if '0' ≤ c ∧ c ≤ '9' then
      let p := parseDigits cs
      (c :: p.1, p.2)
    else ([], c :: cs)

def digitsToNat (ds : List Char) : Nat :=
  ds.foldl (fun a c => a * 10 + (c.toNat - '0'.toNat)) 0

/-- Parse a JSON number (grammar of `JSON.parse`): optional minus, integer
part without leading zeros, optional fraction and exponent.  Integral
literals become `vNum`; anything with a fraction or exponent is kept raw. -/
def parseNumberFrom (cs : List Char) : Option (Value × List Char) :=
  let negp : Bool × List Char :=
    match cs with
    | '-' :: cs1 => (true, cs1)
    | _ => (false, cs)
  let ip := parseDigits negp.2
  if ip.1 = [] then none
  else if ip.1.head? = some '0' ∧ 1 < ip.1.length then none
  else
    match ip.2 with
    | '.' :: cs2 =>
      let fp := parseDigits cs2
      if fp.1 = [] then none
      else
        match fp.2 with
        | c :: cs3 =>
          if c = 'e' ∨ c = 'E' then
            let sgnp : List Char × List Char :=
              match cs3 with
              | '+' :: cs4 => (['+'], cs4)
              | '-' :: cs4 => (['-'], cs4)
              | _ => ([], cs3)
            let ep := parseDigits sgnp.2
            if ep.1 = [] then none
            else
              some (Value.vNumRaw ⟨(if negp.1 then ['-'] else []) ++ ip.1 ++ '.' :: fp.1
                      ++ c :: sgnp.1 ++ ep.1⟩, ep.2)
          else some (Value.vNumRaw ⟨(if negp.1 then ['-'] else []) ++ ip.1 ++ '.' :: fp.1⟩, c :: cs3)
        | [] => some (Value.vNumRaw ⟨(if negp.1 then ['-'] else []) ++ ip.1 ++ '.' :: fp.1⟩, [])
    | c :: cs2 =>
      if c = 'e' ∨ c = 'E' then
        let sgnp : List Char × List Char :=
          match cs2 with
          | '+' :: cs4 => (['+'], cs4)
          | '-' :: cs4 => (['-'], cs4)
          | _ => ([], cs2)
        let ep := parseDigits sgnp.2
        if ep.1 = [] then none
        else
          some (Value.vNumRaw ⟨(if negp.1 then ['-'] else []) ++ ip.1 ++ c :: sgnp.1 ++ ep.1⟩, ep.2)
      else
        some (Value.vNum (if negp.1 then -(digitsToNat ip.1 : Int) else (digitsToNat ip.1 : Int)),
              c :: cs2)
    | [] =>
      some (Value.vNum (if negp.1 then -(digitsToNat ip.1 : Int) else (digitsToNat ip.1 : Int)), [])

mutual

/-- Parse one JSON value; `fuel` bounds the recursion depth. -/
def parseValue : Nat → List Char → Option (Value × List Char)
  | 0, _ => none
  | fuel + 1, cs =>
    match skipWs cs with
    | [] => none
    | c :: rest =>
      if c = 'n' then
        match rest with
        | 'u' :: 'l' :: 'l' :: r => some (Value.vNull, r)
        | _ => none
      else if c = 't' then
        match rest with
        | 'r' :: 'u' :: 'e' :: r => some (Value.vBool true, r)
        | _ => none
      else if c = 'f' then
        match rest with
        | 'a' :: 'l' :: 's' :: 'e' :: r => some (Value.vBool false, r)
        | _ => none
      else if c = '"' then
        (parseStringRest (rest.length + 1) rest).map (fun p => (Value.vStr p.1, p.2))
      else if c = '[' then
        match skipWs rest with
        | ']' :: r => some (Value.vArr [], r)
        | r => (parseArrayItems fuel r).map (fun p => (Value.vArr p.1, p.2))
      else if c = '{' then
        match skipWs rest with
        | '}' :: r => some (Value.vObj [], r)
        | r => (parseObjItems fuel r).map (fun p => (Value.vObj p.1, p.2))
      else parseNumberFrom (c :: rest)

/-- Parse the items of a non-empty JSON array, up to the closing bracket. -/
def parseArrayItems : Nat → List Char → Option (List Value × List Char)
  | 0, _ => none
  | fuel + 1, cs =>
    match parseValue fuel cs with
    | none => none
    | some (v, r) =>
      match skipWs r with
      | ',' :: r2 => (parseArrayItems fuel r2).map (fun p => (v :: p.1, p.2))
      | ']' :: r2 => some ([v], r2)
      | _ => none

/-- Parse the members of a non-empty JSON object, up to the closing brace. -/
def parseObjItems : Nat → List Char → Option (List (String × Value) × List Char)
  | 0, _ => none
  | fuel + 1, cs =>
    match skipWs cs with
    | '"' :: r =>
      match parseStringRest (r.length + 1) r with
      | none => none
      | some (k, r2) =>
        match skipWs r2 with
        | ':' :: r3 =>
          match parseValue fuel r3 with
          | none => none
          | some (v, r4) =>
            match skipWs r4 with
            | ',' :: r5 => (parseObjItems fuel r5).map (fun p => ((k, v) :: p.1, p.2))
            | '}' :: r5 => some ([(k, v)], r5)
            | _ => none
        | _ => none
    | _ => none

end

/-- Model of JS `JSON.parse`: `none` when `JSON.parse` would throw. -/
def jsonParse (s : String) : Option Value :=
  match parseValue (2 * s.length + 8) s.data with
  | some (v, rest) => if skipWs rest = [] then some v else none
  | none => none

example : jsonParse "42" = some (Value.vNum 42) := rfl
example : jsonParse "hello" = none := rfl
example : jsonParse " [1, \"a\", null] " =
    some (Value.vArr [Value.vNum 1, Value.vStr "a", Value.vNull]) := rfl
example : jsonParse "\x7b\"a\": -3\x7d" = some (Value.vObj [("a", Value.vNum (-3))]) := rfl
example : jsonParse "1.5e2" = some (Value.vNumRaw "1.5e2") := rfl
example : jsonParse "01" = none := rfl
example : jsonParse "" = none := rfl

/-- `parseResult` (source lines 659-668): a string result is JSON-parsed
when possible and passed through verbatim otherwise; any non-string value
(including `undefined`, modelled as `none`) is passed through. -/
def parseResult : Option Value → Option Value
  | some (.vStr s) =>
    match jsonParse s with
    | some v => some v
    | none => some (.vStr s)
  | other => other

/-! ## Data model of the client (source lines 208-302) -/

/-- `ApiCallType` (source lines 208-211). -/
structure ApiCall where
  method : String
  params : List Value

/-- The per-request data of `BatchRequestType` (source lines 216-222)
other than the promise callbacks and the timestamp; settlement of the
promise is tracked separately in `ClientState.settled`. -/
structure Request where
  call : ApiCall

/-- Result entry of a server batch response (`ServerResultType`,
source lines 227-232).  `status` is a string because the code compares it
against the literal `"done"` at runtime. -/
structure ResultEntry where
  requestKey : Nat
  status : String
  result : Option Value
  isError : Bool

/-- Entry of the `created` list of a server batch response
(source line 242). -/
structure CreatedEntry where
  requestKey : Nat
  status : String

/-- The `intervalMs` field of a server response: absent, a number
(modelled integral), or present but not a number. -/
inductive WireInterval where
  | num (n : Int)
  | nonNum

/-- Validated batch-response data (`ServerBatchResponseType['data']`,
source lines 237-245).  `cleanupCount` is accepted by the code but never
read, so it is omitted. -/
structure BatchResp where
  intervalMs : Option WireInterval
  results : List ResultEntry
  created : List CreatedEntry

/-- How a caller promise was settled (first settlement wins, as for a JS
promise). -/
inductive Settlement where
  | resolved (v : Option Value)
  | rejected (msg : String)

/-- The closure state of one in-flight batch round: the local variables
`batchToSend` and `completedSnapshot` of `processBatch`
(source lines 506-507). -/
structure Round where
  batchToSend : List (Nat × Request)
  completedSnapshot : List Nat

/-- The complete state of a `KeyBridgeClient` instance:
`connection` (source lines 282-286), `queues` (289-293), `state`
(296-299), plus the bookkeeping fields `nextKey` (fresh requestKey
counter), `settled` (promise settlements) and `inflight` (outstanding
batch rounds). -/
structure ClientState where
  key : Option String
  pollRate : Int
  broken : Bool
  pending : List (Nat × Request)
  active : List (Nat × Request)
  completed : List Nat
  processing : Bool
  error : Option String
  nextKey : Nat
  settled : List (Nat × Settlement)
  inflight : List Round

/-- The state of the freshly constructed singleton (source lines 282-299). -/
def initState : ClientState :=
  { key := none, pollRate := 500, broken := false, pending := [], active := [],
    completed := [], processing := false, error := none, nextKey := 0,
    settled := [], inflight := [] }

/-! ## JS collection helpers -/

/-- `Map.get` on an association list. -/
def lookup (m : List (Nat × α)) (k : Nat) : Option α :=
  match m with
  | [] => none
  | p :: rest => if p.1 = k then some p.2 else lookup rest k

/-- `Map.set`: update in place when the key is present, else append
(JS `Map` insertion-order semantics). -/
def mapSet (m : List (Nat × α)) (k : Nat) (v : α) : List (Nat × α) :=
  if (lookup m k).isSome then
    m.map (fun p => if p.1 = k then (k, v) else p)
  else m ++ [(k, v)]

/-- `Map.delete`. -/
def mapDelete (m : List (Nat × α)) (k : Nat) : List (Nat × α) :=
  m.filter (fun p => p.1 ≠ k)

/-- Keys of an association list, in insertion order. -/
def keysOf (m : List (Nat × α)) : List Nat :=
  m.map Prod.fst

/-- `Set.add`: append unless already present. -/
def setAdd (s : List Nat) (k : Nat) : List Nat :=
  if k ∈ s then s else s ++ [k]

/-- Record a settlement for `k` unless its promise is already settled
(a JS promise settles at most once). -/
def settlePut (st : List (Nat × Settlement)) (k : Nat) (v : Settlement) :
    List (Nat × Settlement) :=
  if (lookup st k).isSome then st else st ++ [(k, v)]

/-- Remove the element at index `i`. -/
def removeIdx (l : List α) (i : Nat) : List α :=
  l.take i ++ l.drop (i + 1)

/-! ## The operations of the client -/

/-- The whitespace class of JS `String.prototype.trim` (ASCII part; the
keys in scope are ASCII). -/
def isWsChar (c : Char) : Bool :=
  c = ' ' ∨ c = '\t' ∨ c = '\n' ∨ c = '\r' ∨ c = '\x0b' ∨ c = '\x0c'

/-- Model of JS `String.prototype.trim`. -/
def jsTrim (s : String) : String :=
  ⟨((s.data.dropWhile isWsChar).reverse.dropWhile isWsChar).reverse⟩

/-- JS truthiness of the stored key (`!!this.connection.key`). -/
def keyTruthy : Option String → Bool
  | some s => s ≠ ""
  | none => false

/-- JS truthiness of the stored error string (`!this.state.error` negated). -/
def errTruthy : Option String → Bool
  | some s => s ≠ ""
  | none => false

/-- JS `a || b` for an optional string with a default: the default is used
when the option is absent or the string is falsy (empty). -/
def jsOrElse (o : Option String) (d : String) : String :=
  match o with
  | some s => if s = "" then d else s
  | none => d

/-- `Math.max(500, Math.min(10000, n))` (source lines 415 and 550). -/
def clampRate (n : Int) : Int :=
  max 500 (min 10000 n)

/-- The snapshot returned by `getState` (source lines 307-319). -/
structure Snapshot where
  connected : Bool
  processing : Bool
  error : Option String
  pollRate : Int
  pendingCount : Nat
  activeCount : Nat
  completedCount : Nat
  deriving DecidableEq

/-- `getState` (source lines 307-319). -/
def getState (s : ClientState) : Snapshot :=
  { connected := !s.broken && keyTruthy s.key,
    processing := s.processing,
    error := s.error,
    pollRate := s.pollRate,
    pendingCount := s.pending.length,
    activeCount := s.active.length,
    completedCount := s.completed.length }

/-- The `isConnected` getter (source lines 683-691): additionally requires
that no error is recorded. -/
def isConnected (s : ClientState) : Bool :=
  !s.broken && keyTruthy s.key && !errTruthy s.error

/-- `getLastError` (source lines 696-698). -/
def getLastError (s : ClientState) : Option String :=
  s.error

/-- `resetState` (source lines 634-646): reject every pending and active
request with "Connection reset", clear all three queues, clear
`processing`. -/
def resetStateEff (s : ClientState) : ClientState :=
  let toReject := s.pending ++ s.active
  let settled := toReject.foldl (fun acc p => settlePut acc p.1 (.rejected "Connection reset")) s.settled
  { s with pending := [], active := [], completed := [], processing := false,
           settled := settled }

/-- Outcome of the initialization handshake awaited inside `setKey`
(source lines 401-429): success carrying the response's `intervalMs`
field, an HTTP 404 carrying the response body's optional `message`, or
any other failure carrying its error message. -/
inductive Handshake where
  | ok (intervalMs : Option WireInterval)
  | err404 (serverMsg : Option String)
  | errOther (msg : String)

/-- How the promise returned by `setKey` settles. -/
inductive SetKeyOutcome where
  | ok
  | rejected (msg : String)

/-- `setKey` (source lines 344-367) together with the handshake
`initializeConnection` (source lines 401-429), taken as one atomic step
(no claim in scope depends on interleavings inside the handshake await).
`key = none` models `setKey(null)`. -/
def setKeyStep (s : ClientState) (key : Option String) (hs : Handshake) :
    ClientState × SetKeyOutcome :=
  -- lines 346-348: clear the failure flags, then resetState
  let s := { s with broken := false, error := none }
  let s := resetStateEff s
  -- line 351: `(key || '').trim() || null`
  let newKey : Option String :=
    match key with
    | none => none
    | some k => if jsTrim k = "" then none else some (jsTrim k)
  let s := { s with key := newKey }
  match newKey with
  | none => (s, .ok)                                  -- lines 353-356
  | some _ =>
    match hs with
    | .ok iv =>
      -- lines 413-416: adopt a positive numeric intervalMs, clamped
      let s :=
        match iv with
        | some (.num n) => if 0 < n then { s with pollRate := clampRate n } else s
        | _ => s
      (s, .ok)
    | .err404 serverMsg =>
      -- lines 421-425: mark broken, record the user-facing message,
      -- null the key, throw KEY_NOT_FOUND ...
      let s := { s with broken := true,
                        error := some (jsOrElse serverMsg "Сессия не найдена. Создайте ключ заново."),
                        key := none }
      -- ... which setKey's catch (line 363) overwrites with the thrown
      -- error's message before rethrowing
      let s := { s with error := some "KEY_NOT_FOUND" }
      (s, .rejected "KEY_NOT_FOUND")
    | .errOther msg =>
      -- line 427 rethrows; setKey's catch (line 363) records the message
      let s := { s with error := some msg }
      (s, .rejected msg)

/-- What `executeOrFallback` does with the caller's promise. -/
inductive ExecOutcome where
  | fallback
  | enqueued (k : Nat)
  deriving DecidableEq

/-- `executeOrFallback` (source lines 375-396): when the connection is
broken or no key is set the fallback's promise is returned unchanged;
otherwise a fresh requestKey is allocated and the request enqueued as
pending. -/
def executeOrFallbackStep (s : ClientState) (c : ApiCall) :
    ClientState × ExecOutcome :=
  if s.broken || !keyTruthy s.key then (s, .fallback)
  else
    let rk := s.nextKey
    ({ s with pending := mapSet s.pending rk ⟨c⟩, nextKey := rk + 1 }, .enqueued rk)

/-- `processIfNeeded` (source lines 467-485) together with the synchronous
prefix of `processBatch` (source lines 490-511): guard checks, setting
`processing`, snapshotting `pending`/`completed` into the round and
clearing them.  Returns whether a round was started.  (The re-check at
line 491 cannot fail here because nothing runs between line 469 and it.) -/
def processIfNeededStart (s : ClientState) : ClientState × Bool :=
  if s.broken || s.processing || !keyTruthy s.key then (s, false)
  else if s.pending.length = 0 && s.active.length = 0 && s.completed.length = 0 then
    (s, false)
  else
    let s := { s with processing := true }
    let r : Round := ⟨s.pending, s.completed⟩
    ({ s with pending := [], completed := [], inflight := r :: s.inflight }, true)

/-- One iteration of the `data.results?.forEach` loop of
`handleBatchResponse` (source lines 554-569). -/
def handleResultEntry (s : ClientState) (e : ResultEntry) : ClientState :=
  match lookup s.active e.requestKey with
  | none => s
  | some _ =>
    if e.status = "done" then
      let st :=
        if e.isError then
          settlePut s.settled e.requestKey
            (.rejected (match e.result with
              | some (.vStr m) => m
              | _ => "Execution failed"))
        else
          settlePut s.settled e.requestKey (.resolved (parseResult e.result))
      { s with settled := st,
               active := mapDelete s.active e.requestKey,
               completed := setAdd s.completed e.requestKey }
    else s

/-- One iteration of the `data.created?.forEach` loop of
`handleBatchResponse` (source lines 572-583); `batch` is the immutable
`batchToSend` snapshot. -/
def handleCreatedEntry (batch : List (Nat × Request)) (s : ClientState)
    (e : CreatedEntry) : ClientState :=
  match lookup batch e.requestKey with
  | none => s
  | some req =>
    if e.status = "pending" then
      { s with active := mapSet s.active e.requestKey req }
    else
      { s with settled := settlePut s.settled e.requestKey (.rejected "Failed to enqueue request") }

/-- Lines 549-551 of `handleBatchResponse`: adopt a numeric `intervalMs`,
clamped into `[500, 10000]` (no positivity check on this path). -/
def adoptInterval (s : ClientState) (iv : Option WireInterval) : ClientState :=
  match iv with
  | some (.num n) => { s with pollRate := clampRate n }
  | _ => s

/-- `handleBatchResponse` (source lines 547-586). -/
def handleBatchResponse (s : ClientState) (resp : BatchResp)
    (batch : List (Nat × Request)) : ClientState :=
  let s := adoptInterval s resp.intervalMs
  let s := resp.results.foldl handleResultEntry s
  resp.created.foldl (handleCreatedEntry batch) s

/-- Completion of an in-flight batch round whose POST succeeded and whose
response validated (source lines 513-534), followed by the `finally` of
`processIfNeeded` (line 482) clearing `processing`.  `i` selects which
outstanding round completed. -/
def finishRoundOkStep (s : ClientState) (i : Nat) (resp : BatchResp) :
    Option ClientState :=
  match s.inflight.get? i with
  | none => none
  | some r =>
    let s := { s with inflight := removeIdx s.inflight i }
    let s := handleBatchResponse s resp r.batchToSend
    some { s with processing := false }

/-- Completion of an in-flight batch round whose POST failed or whose
response did not validate: `handleBatchError` (source lines 594-629),
followed by the `finally` of `processIfNeeded` clearing `processing`.
`status` is the HTTP status of the error response, `none` for a
network-level failure, timeout or validation error. -/
def finishRoundErrStep (s : ClientState) (i : Nat) (status : Option Nat)
    (errMsg : String) (serverMsg : Option String) : Option ClientState :=
  match s.inflight.get? i with
  | none => none
  | some r =>
    let s := { s with inflight := removeIdx s.inflight i }
    -- lines 600-603: restore the queues from the snapshots
    let s := { s with
      pending := r.batchToSend.foldl
        (fun (m : List (Nat × Request)) (p : Nat × Request) => mapSet m p.1 p.2) s.pending,
      completed := r.completedSnapshot.foldl setAdd s.completed }
    -- line 606
    let s := { s with error := some errMsg }
    -- lines 609-626
    let critical := status = some 404 || status = some 500
    let s :=
      if critical then
        let s := { s with broken := true }
        let s :=
          if status = some 404 then
            { s with key := none,
                     error := some (jsOrElse serverMsg "Сессия не найдена. Создайте ключ заново.") }
          else s
        resetStateEff s
      else s
    some { s with processing := false }

/-! ## The event system -/

/-- The externally triggered atomic steps of the client.  `poll` is any
invocation of `processIfNeeded` (from `executeOrFallback`, from a
`setTimeout` chain, or spurious - a superset of the real schedules, which
only strengthens universally quantified results; the concrete
counterexample traces below all follow real schedules). -/
inductive Event where
  | exec (c : ApiCall)
  | setKey (key : Option String) (hs : Handshake)
  | poll
  | roundOk (i : Nat) (resp : BatchResp)
  | roundErr (i : Nat) (status : Option Nat) (errMsg : String) (serverMsg : Option String)

/-- Apply one event; `none` when the event is not enabled (completion of a
round that is not in flight). -/
def applyEvent (s : ClientState) (e : Event) : Option ClientState :=
  match e with
  | .exec c => some (executeOrFallbackStep s c).1
  | .setKey k hs => some (setKeyStep s k hs).1
  | .poll => some (processIfNeededStart s).1
  | .roundOk i resp => finishRoundOkStep s i resp
  | .roundErr i status errMsg serverMsg => finishRoundErrStep s i status errMsg serverMsg

/-- Run a list of events from a state. -/
def runEvents (s : ClientState) : List Event → Option ClientState
  | [] => some s
  | e :: evs =>
    match applyEvent s e with
    | none => none
    | some s2 => runEvents s2 evs

/-- Run a list of events from the initial state. -/
def run (evs : List Event) : Option ClientState :=
  runEvents initState evs

/-- States reachable from the initial state by events each of which
satisfies the step predicate `P` in the state where it fires. -/
inductive ReachP (P : ClientState → Event → Prop) : ClientState → Prop where
  | init : ReachP P initState
  | step {s e s2} : ReachP P s → P s e → applyEvent s e = some s2 → ReachP P s2

/-- The trivial step predicate: all executions. -/
def AnyEv : ClientState → Event → Prop := fun _ _ => True

/-! ## Derived key sets

A requestKey handed to the wire sits, between the two halves of a batch
round, in the round's `batchToSend`/`completedSnapshot` closure rather
than in the live queues; the *effective* pending/completed sets therefore
include the in-flight snapshots. -/

/-- Effective pending keys: live `queues.pending` plus the `batchToSend`
snapshots of in-flight rounds. -/
def pendK (s : ClientState) : List Nat :=
  keysOf s.pending ++ (s.inflight.map (fun r => keysOf r.batchToSend)).flatten

/-- Active keys: `queues.active`. -/
def actK (s : ClientState) : List Nat :=
  keysOf s.active

/-- Effective completed keys: live `queues.completed` plus the
`completedSnapshot`s of in-flight rounds. -/
def compK (s : ClientState) : List Nat :=
  s.completed ++ (s.inflight.map Round.completedSnapshot).flatten

/-- Whether the caller promise of requestKey `k` has settled. -/
def settledB (st : List (Nat × Settlement)) (k : Nat) : Bool :=
  (lookup st k).isSome

/-- Whether the caller promise of `k` has settled in state `s`. -/
def isSettled (s : ClientState) (k : Nat) : Bool :=
  settledB s.settled k

/-- The requestKeys present in the three live queues (no in-flight
snapshots): the quantity claim C3 compares across a failed round. -/
def liveKeys (s : ClientState) : List Nat :=
  keysOf s.pending ++ keysOf s.active ++ s.completed

/-! ## Helper lemmas about the JS collection models -/

theorem lookup_isSome_iff {m : List (Nat × α)} {k : Nat} :
    (lookup m k).isSome = true ↔ k ∈ keysOf m := by
  induction m with
  | nil => simp [lookup, keysOf]
  | cons p rest ih =>
    by_cases h : p.1 = k
    · simp [lookup, keysOf, h]
    · simp [lookup, keysOf, h, ih, Ne.symm h]

theorem lookup_eq_none_iff {m : List (Nat × α)} {k : Nat} :
    lookup m k = none ↔ k ∉ keysOf m := by
  rw [← lookup_isSome_iff, Option.isSome_iff_ne_none]
  tauto

theorem keysOf_mapSet_of_mem {m : List (Nat × α)} {k : Nat} {v : α}
    (h : (lookup m k).isSome = true) : keysOf (mapSet m k v) = keysOf m := by
  unfold mapSet
  rw [if_pos h]
  unfold keysOf
  rw [List.map_map]
  apply List.map_congr_left
  intro p _
  by_cases hpk : p.1 = k
  · simp [hpk]
  · simp [hpk]

theorem keysOf_mapSet_of_not_mem {m : List (Nat × α)} {k : Nat} {v : α}
    (h : ¬ (lookup m k).isSome = true) :
    keysOf (mapSet m k v) = keysOf m ++ [k] := by
  unfold mapSet
  rw [if_neg h]
  simp [keysOf]

theorem mem_keysOf_mapSet {m : List (Nat × α)} {k k' : Nat} {v : α} :
    k' ∈ keysOf (mapSet m k v) ↔ k' ∈ keysOf m ∨ k' = k := by
  by_cases h : (lookup m k).isSome = true
  · rw [keysOf_mapSet_of_mem h]
    have hk : k ∈ keysOf m := lookup_isSome_iff.mp h
    constructor
    · exact Or.inl
    · rintro (hc | rfl)
      · exact hc
      · exact hk
  · rw [keysOf_mapSet_of_not_mem h]
    simp

theorem keysOf_mapSet_nodup {m : List (Nat × α)} {k : Nat} {v : α}
    (h : (keysOf m).Nodup) : (keysOf (mapSet m k v)).Nodup := by
  by_cases hs : (lookup m k).isSome = true
  · rw [keysOf_mapSet_of_mem hs]; exact h
  · rw [keysOf_mapSet_of_not_mem hs]
    have hk : k ∉ keysOf m := by
      intro hm
      exact hs (lookup_isSome_iff.mpr hm)
    simp [List.nodup_append, h, hk]

theorem mem_keysOf_mapDelete {m : List (Nat × α)} {k k' : Nat} :
    k' ∈ keysOf (mapDelete m k) ↔ k' ∈ keysOf m ∧ k' ≠ k := by
  unfold mapDelete keysOf
  constructor
  · intro hm
    rcases List.mem_map.mp hm with ⟨p, hp, hpe⟩
    have := List.of_mem_filter hp
    refine ⟨hpe ▸ List.mem_map_of_mem Prod.fst (List.mem_of_mem_filter hp), ?_⟩
    subst hpe
    simpa using this
  · rintro ⟨hm, hne⟩
    rcases List.mem_map.mp hm with ⟨p, hp, hpe⟩
    refine List.mem_map.mpr ⟨p, List.mem_filter.mpr ⟨hp, ?_⟩, hpe⟩
    subst hpe
    simpa using hne

theorem mem_setAdd {s : List Nat} {k k' : Nat} :
    k' ∈ setAdd s k ↔ k' ∈ s ∨ k' = k := by
  unfold setAdd
  by_cases h : k ∈ s
  · rw [if_pos h]
    constructor
    · exact Or.inl
    · rintro (hc | rfl)
      · exact hc
      · exact h
  · rw [if_neg h]
    simp

theorem settledB_settlePut {st : List (Nat × Settlement)} {k k' : Nat} {v : Settlement} :
    settledB (settlePut st k v) k' = true ↔ settledB st k' = true ∨ k' = k := by
  unfold settlePut
  by_cases h : (lookup st k).isSome = true
  · rw [if_pos h]
    unfold settledB
    constructor
    · exact Or.inl
    · rintro (hc | rfl)
      · exact hc
      · exact h
  · rw [if_neg h]
    unfold settledB
    rw [lookup_isSome_iff, lookup_isSome_iff]
    simp [keysOf]

theorem settledB_settlePut_mono {st : List (Nat × Settlement)} {k k' : Nat} {v : Settlement}
    (h : settledB st k' = true) : settledB (settlePut st k v) k' = true :=
  settledB_settlePut.mpr (Or.inl h)

theorem mem_keysOf_foldl_mapSet {l : List (Nat × α)} {m0 : List (Nat × α)} {k : Nat} :
    k ∈ keysOf (l.foldl (fun (m : List (Nat × α)) p => mapSet m p.1 p.2) m0) ↔
      k ∈ keysOf m0 ∨ k ∈ keysOf l := by
  induction l generalizing m0 with
  | nil => simp [keysOf]
  | cons p rest ih =>
    rw [List.foldl_cons, ih, mem_keysOf_mapSet]
    simp only [keysOf, List.map_cons, List.mem_cons]
    tauto

theorem nodup_keysOf_foldl_mapSet {l : List (Nat × α)} {m0 : List (Nat × α)}
    (h : (keysOf m0).Nodup) :
    (keysOf (l.foldl (fun (m : List (Nat × α)) p => mapSet m p.1 p.2) m0)).Nodup := by
  induction l generalizing m0 with
  | nil => exact h
  | cons p rest ih => exact ih (keysOf_mapSet_nodup h)

theorem mem_foldl_setAdd {l : List Nat} {s0 : List Nat} {k : Nat} :
    k ∈ l.foldl setAdd s0 ↔ k ∈ s0 ∨ k ∈ l := by
  induction l generalizing s0 with
  | nil => simp
  | cons a rest ih =>
    simp only [List.foldl_cons, ih, mem_setAdd, List.mem_cons]
    tauto

theorem settledB_foldl_settlePut {l : List (Nat × Request)} {st : List (Nat × Settlement)}
    {c : Settlement} {k : Nat} :
    settledB (l.foldl (fun acc p => settlePut acc p.1 c) st) k = true ↔
      settledB st k = true ∨ k ∈ keysOf l := by
  induction l generalizing st with
  | nil => simp [keysOf]
  | cons p rest ih =>
    simp only [List.foldl_cons, ih, settledB_settlePut, keysOf, List.map_cons, List.mem_cons]
    tauto

theorem sublist_removeIdx (l : List α) (i : Nat) : List.Sublist (removeIdx l i) l := by
  unfold removeIdx
  conv_rhs => rw [← List.take_append_drop i l]
  apply List.Sublist.append_left
  have hd : l.drop (i + 1) = (l.drop i).drop 1 := by
    rw [← List.drop_drop]
  rw [hd]
  exact List.drop_sublist 1 (l.drop i)

theorem flatten_sublist_of_sublist {l1 l2 : List (List α)} (h : List.Sublist l1 l2) :
    List.Sublist l1.flatten l2.flatten := by
  induction h with
  | slnil => simp
  | cons a _ ih =>
    simpa using ih.trans (List.sublist_append_right a _)
  | cons₂ a _ ih =>
    simpa using List.Sublist.append_left ih a

theorem drop_eq_cons_of_get? {l : List α} {i : Nat} {r : α} (h : l.get? i = some r) :
    l.drop i = r :: l.drop (i + 1) := by
  induction l generalizing i with
  | nil => simp at h
  | cons a rest ih =>
    cases i with
    | zero =>
      simp only [List.get?] at h
      cases h
      simp
    | succ j =>
      simp only [List.get?] at h
      simpa using ih h

theorem eq_append_of_get? {l : List α} {i : Nat} {r : α} (h : l.get? i = some r) :
    l = l.take i ++ r :: l.drop (i + 1) := by
  conv_lhs => rw [← List.take_append_drop i l]
  rw [drop_eq_cons_of_get? h]

theorem mem_removeIdx_or_eq {l : List α} {i : Nat} {r a : α} (h : l.get? i = some r)
    (ha : a ∈ l) : a ∈ removeIdx l i ∨ a = r := by
  rw [eq_append_of_get? h] at ha
  unfold removeIdx
  rcases List.mem_append.mp ha with h1 | h2
  · exact Or.inl (List.mem_append.mpr (Or.inl h1))
  · rcases List.mem_cons.mp h2 with h3 | h4
    · exact Or.inr h3
    · exact Or.inl (List.mem_append.mpr (Or.inr h4))

theorem mem_of_mem_removeIdx {l : List α} {i : Nat} {a : α}
    (h : a ∈ removeIdx l i) : a ∈ l :=
  (sublist_removeIdx l i).mem h

theorem keysOf_append {a b : List (Nat × α)} : keysOf (a ++ b) = keysOf a ++ keysOf b := by
  simp [keysOf]

theorem mem_pendK {s : ClientState} {k : Nat} :
    k ∈ pendK s ↔ k ∈ keysOf s.pending ∨ ∃ r ∈ s.inflight, k ∈ keysOf r.batchToSend := by
  simp [pendK, List.mem_flatten]

theorem mem_compK {s : ClientState} {k : Nat} :
    k ∈ compK s ↔ k ∈ s.completed ∨ ∃ r ∈ s.inflight, k ∈ r.completedSnapshot := by
  simp [compK, List.mem_flatten]

/-! ## The queue-partition invariant (claim C2)

A requestKey is *classified* as effective-pending, active,
effective-completed, or terminal (promise settled, key dropped from every
queue).  The invariant states that every key ever created falls in exactly
one class, that pending/active keys are still unsettled, and that
effective-completed keys are exactly the delivered-but-unacknowledged
ones (already settled). -/

structure Inv (s : ClientState) : Prop where
  bound : ∀ k, k ∈ pendK s ∨ k ∈ actK s ∨ k ∈ compK s ∨ isSettled s k = true →
    k < s.nextKey
  pendNodup : (pendK s).Nodup
  pa : ∀ k, k ∈ pendK s → k ∉ actK s
  pendUns : ∀ k, k ∈ pendK s → ¬ isSettled s k = true
  actUns : ∀ k, k ∈ actK s → ¬ isSettled s k = true
  compSet : ∀ k, k ∈ compK s → isSettled s k = true
  total : ∀ k, k < s.nextKey →
    k ∈ pendK s ∨ k ∈ actK s ∨ k ∈ compK s ∨ isSettled s k = true

theorem inv_init : Inv initState := by
  constructor <;>
    simp [initState, pendK, actK, compK, keysOf, isSettled, settledB, lookup]

/-- The state produced by the enqueue branch of `executeOrFallback`. -/
def enqState (s : ClientState) (c : ApiCall) : ClientState :=
  { s with
    pending := mapSet s.pending s.nextKey ⟨c⟩,
    nextKey := s.nextKey + 1 }

theorem executeOrFallbackStep_enq {s : ClientState} {c : ApiCall}
    (hg : ¬ (s.broken || !keyTruthy s.key) = true) :
    executeOrFallbackStep s c = (enqState s c, .enqueued s.nextKey) := by
  unfold executeOrFallbackStep enqState
  rw [if_neg hg]

theorem inv_enqState (s : ClientState) (c : ApiCall) (h : Inv s) :
    Inv (enqState s c) := by
  have hfresh : s.nextKey ∉ pendK s := fun hm => absurd (h.bound _ (Or.inl hm)) (by omega)
  have hfreshA : s.nextKey ∉ actK s := fun hm => absurd (h.bound _ (Or.inr (Or.inl hm))) (by omega)
  have hfreshC : s.nextKey ∉ compK s :=
    fun hm => absurd (h.bound _ (Or.inr (Or.inr (Or.inl hm)))) (by omega)
  have hfreshS : ¬ isSettled s s.nextKey = true :=
    fun hm => absurd (h.bound _ (Or.inr (Or.inr (Or.inr hm)))) (by omega)
  have hlook : lookup s.pending s.nextKey = none := by
    rw [lookup_eq_none_iff]
    intro hm
    exact hfresh (mem_pendK.mpr (Or.inl hm))
  have hpend : ∀ x, x ∈ pendK (enqState s c) ↔ x ∈ pendK s ∨ x = s.nextKey := by
    intro x
    show x ∈ keysOf (mapSet s.pending s.nextKey ⟨c⟩) ++ _ ↔ _
    rw [List.mem_append, mem_keysOf_mapSet]
    unfold pendK
    rw [List.mem_append]
    tauto
  have hact : actK (enqState s c) = actK s := rfl
  have hcomp : compK (enqState s c) = compK s := rfl
  have hset : ∀ x, isSettled (enqState s c) x = isSettled s x := fun _ => rfl
  have hnext : (enqState s c).nextKey = s.nextKey + 1 := rfl
  constructor
  · intro k hk
    rw [hnext]
    rw [hact, hcomp, hset] at hk
    rcases hk with hk | hk | hk | hk
    · rcases (hpend k).mp hk with hk | rfl
      · have := h.bound k (Or.inl hk); omega
      · omega
    · have := h.bound k (Or.inr (Or.inl hk)); omega
    · have := h.bound k (Or.inr (Or.inr (Or.inl hk))); omega
    · have := h.bound k (Or.inr (Or.inr (Or.inr hk))); omega
  · -- Nodup of the grown effective pending set
    have hkeys : keysOf (mapSet s.pending s.nextKey (⟨c⟩ : Request)) =
        keysOf s.pending ++ [s.nextKey] := by
      apply keysOf_mapSet_of_not_mem
      simp [hlook]
    show ((keysOf (mapSet s.pending s.nextKey ⟨c⟩)) ++ _).Nodup
    rw [hkeys]
    have hold : (keysOf s.pending ++
        (s.inflight.map (fun r => keysOf r.batchToSend)).flatten).Nodup := h.pendNodup
    have hxA : s.nextKey ∉ keysOf s.pending :=
      fun hm => hfresh (List.mem_append.mpr (Or.inl hm))
    have hxB : s.nextKey ∉ (s.inflight.map (fun r => keysOf r.batchToSend)).flatten :=
      fun hm => hfresh (List.mem_append.mpr (Or.inr hm))
    rw [List.nodup_append] at hold
    rw [List.append_assoc, List.nodup_append, List.nodup_append]
    refine ⟨hold.1, ⟨List.nodup_singleton _, hold.2.1, ?_⟩, ?_⟩
    · intro a ha hb
      simp only [List.mem_singleton] at ha
      subst ha
      exact hxB hb
    · intro a ha hb
      rcases List.mem_append.mp hb with hb | hb
      · simp only [List.mem_singleton] at hb
        subst hb
        exact hxA ha
      · exact hold.2.2 ha hb
  · intro k hk
    rw [hact]
    rcases (hpend k).mp hk with hk | rfl
    · exact h.pa k hk
    · exact hfreshA
  · intro k hk
    rw [hset]
    rcases (hpend k).mp hk with hk | rfl
    · exact h.pendUns k hk
    · exact hfreshS
  · intro k hk
    rw [hset]
    rw [hact] at hk
    exact h.actUns k hk
  · intro k hk
    rw [hset]
    rw [hcomp] at hk
    exact h.compSet k hk
  · intro k hk
    rw [hnext] at hk
    rw [hact, hcomp, hset]
    by_cases hlt : k < s.nextKey
    · rcases h.total k hlt with hc | hc | hc | hc
      · exact Or.inl ((hpend k).mpr (Or.inl hc))
      · exact Or.inr (Or.inl hc)
      · exact Or.inr (Or.inr (Or.inl hc))
      · exact Or.inr (Or.inr (Or.inr hc))
    · have hke : k = s.nextKey := by omega
      exact Or.inl ((hpend k).mpr (Or.inr hke))

/-- `executeOrFallback` preserves the invariant. -/
theorem inv_exec (s : ClientState) (c : ApiCall) (h : Inv s) :
    Inv (executeOrFallbackStep s c).1 := by
  by_cases hg : (s.broken || !keyTruthy s.key) = true
  · unfold executeOrFallbackStep
    rw [if_pos hg]
    exact h
  · rw [executeOrFallbackStep_enq hg]
    exact inv_enqState s c h

/-- The invariant transfers along extensional equality of the key
classes (the effective-pending `Nodup` must be re-established). -/
theorem inv_transfer_mem (s s2 : ClientState) (h : Inv s)
    (hp : ∀ k, k ∈ pendK s2 ↔ k ∈ pendK s)
    (ha : ∀ k, k ∈ actK s2 ↔ k ∈ actK s)
    (hc : ∀ k, k ∈ compK s2 ↔ k ∈ compK s)
    (hs : ∀ k, isSettled s2 k = isSettled s k)
    (hn : s2.nextKey = s.nextKey)
    (hnd : (pendK s2).Nodup) : Inv s2 := by
  constructor
  · intro k hk
    rw [hn]
    apply h.bound
    rw [hp, ha, hc, hs] at hk
    exact hk
  · exact hnd
  · intro k hk
    rw [ha]
    exact h.pa k ((hp k).mp hk)
  · intro k hk
    rw [hs]
    exact h.pendUns k ((hp k).mp hk)
  · intro k hk
    rw [hs]
    exact h.actUns k ((ha k).mp hk)
  · intro k hk
    rw [hs]
    exact h.compSet k ((hc k).mp hk)
  · intro k hk
    rw [hn] at hk
    rw [hp, ha, hc, hs]
    exact h.total k hk

/-- The invariant transfers to a state with the same queue, settlement
and counter fields (connection fields may differ freely). -/
theorem inv_transfer_same (s s2 : ClientState) (h : Inv s)
    (hp : s2.pending = s.pending) (ha : s2.active = s.active)
    (hc : s2.completed = s.completed) (hst : s2.settled = s.settled)
    (hi : s2.inflight = s.inflight) (hn : s2.nextKey = s.nextKey) : Inv s2 := by
  have hp2 : pendK s2 = pendK s := by unfold pendK; rw [hp, hi]
  have ha2 : actK s2 = actK s := by unfold actK; rw [ha]
  have hc2 : compK s2 = compK s := by unfold compK; rw [hc, hi]
  have hs2 : ∀ k, isSettled s2 k = isSettled s k := by
    intro k; unfold isSettled; rw [hst]
  refine inv_transfer_mem s s2 h ?_ ?_ ?_ hs2 hn ?_
  · intro k; rw [hp2]
  · intro k; rw [ha2]
  · intro k; rw [hc2]
  · rw [hp2]; exact h.pendNodup

theorem isSettled_resetStateEff {s : ClientState} {k : Nat} :
    isSettled (resetStateEff s) k = true ↔
      isSettled s k = true ∨ k ∈ keysOf s.pending ∨ k ∈ keysOf s.active := by
  show settledB ((s.pending ++ s.active).foldl
    (fun acc p => settlePut acc p.1 (.rejected "Connection reset")) s.settled) k = true ↔ _
  rw [settledB_foldl_settlePut, keysOf_append, List.mem_append]
  exact Iff.rfl

/-- `resetState` preserves the invariant: every live pending/active key
is settled (rejected), every queue is emptied, snapshots of in-flight
rounds are untouched. -/
theorem inv_resetStateEff (s : ClientState) (h : Inv s) : Inv (resetStateEff s) := by
  have hp : (resetStateEff s).pending = [] := rfl
  have ha : (resetStateEff s).active = [] := rfl
  have hc : (resetStateEff s).completed = [] := rfl
  have hi : (resetStateEff s).inflight = s.inflight := rfl
  have hn : (resetStateEff s).nextKey = s.nextKey := rfl
  have hst : ∀ k, isSettled (resetStateEff s) k = true ↔
      isSettled s k = true ∨ k ∈ keysOf s.pending ∨ k ∈ keysOf s.active := by
    intro k
    show settledB ((s.pending ++ s.active).foldl
      (fun acc p => settlePut acc p.1 (.rejected "Connection reset")) s.settled) k = true ↔ _
    rw [settledB_foldl_settlePut, keysOf_append, List.mem_append]
    exact Iff.rfl
  have hpend : ∀ k, k ∈ pendK (resetStateEff s) ↔
      ∃ r ∈ s.inflight, k ∈ keysOf r.batchToSend := by
    intro k
    rw [mem_pendK, hp, hi]
    simp [keysOf]
  have hcomp : ∀ k, k ∈ compK (resetStateEff s) ↔
      ∃ r ∈ s.inflight, k ∈ r.completedSnapshot := by
    intro k
    rw [mem_compK, hc, hi]
    simp
  have hpsub : ∀ k, k ∈ pendK (resetStateEff s) → k ∈ pendK s := by
    intro k hk
    exact mem_pendK.mpr (Or.inr ((hpend k).mp hk))
  have hcsub : ∀ k, k ∈ compK (resetStateEff s) → k ∈ compK s := by
    intro k hk
    exact mem_compK.mpr (Or.inr ((hcomp k).mp hk))
  have hactnil : actK (resetStateEff s) = [] := rfl
  constructor
  · intro k hk
    apply h.bound
    rcases hk with hk | hk | hk | hk
    · exact Or.inl (hpsub k hk)
    · rw [hactnil] at hk; simp at hk
    · exact Or.inr (Or.inr (Or.inl (hcsub k hk)))
    · rcases (hst k).mp hk with hk | hk | hk
      · exact Or.inr (Or.inr (Or.inr hk))
      · exact Or.inl (mem_pendK.mpr (Or.inl hk))
      · exact Or.inr (Or.inl hk)
  · show (keysOf ([] : List (Nat × Request)) ++
      (s.inflight.map (fun r => keysOf r.batchToSend)).flatten).Nodup
    have hsub : List.Sublist
        ((s.inflight.map (fun r => keysOf r.batchToSend)).flatten)
        (pendK s) := List.sublist_append_right _ _
    simpa [keysOf] using hsub.nodup h.pendNodup
  · intro k hk
    rw [hactnil]
    simp
  · intro k hk
    have hks : k ∈ pendK s := hpsub k hk
    rw [hst]
    push_neg
    refine ⟨h.pendUns k hks, ?_, ?_⟩
    · -- not in the live pending queue: snapshots are disjoint from it
      intro hmem
      have hnd := h.pendNodup
      unfold pendK at hnd
      rw [List.nodup_append] at hnd
      exact hnd.2.2 hmem (by
        rcases (hpend k).mp hk with ⟨r, hr, hkr⟩
        exact List.mem_flatten.mpr ⟨keysOf r.batchToSend, List.mem_map.mpr ⟨r, hr, rfl⟩, hkr⟩)
    · intro hmem
      exact h.pa k hks hmem
  · intro k hk
    rw [hactnil] at hk
    simp at hk
  · intro k hk
    rw [hst]
    exact Or.inl (h.compSet k (hcsub k hk))
  · intro k hk
    rcases h.total k hk with hc2 | hc2 | hc2 | hc2
    · rcases mem_pendK.mp hc2 with hlive | hsnap
      · exact Or.inr (Or.inr (Or.inr ((hst k).mpr (Or.inr (Or.inl hlive)))))
      · exact Or.inl ((hpend k).mpr hsnap)
    · exact Or.inr (Or.inr (Or.inr ((hst k).mpr (Or.inr (Or.inr hc2)))))
    · rcases mem_compK.mp hc2 with hlive | hsnap
      · exact Or.inr (Or.inr (Or.inr ((hst k).mpr (Or.inl (h.compSet k hc2)))))
      · exact Or.inr (Or.inr (Or.inl ((hcomp k).mpr hsnap)))
    · exact Or.inr (Or.inr (Or.inr ((hst k).mpr (Or.inl hc2))))

/-- `setKey` preserves the invariant (for any key and handshake result). -/
theorem inv_setKey (s : ClientState) (key : Option String) (hs : Handshake)
    (h : Inv s) : Inv (setKeyStep s key hs).1 := by
  have hbase : Inv (resetStateEff { s with broken := false, error := none }) := by
    apply inv_resetStateEff
    exact inv_transfer_same s _ h rfl rfl rfl rfl rfl rfl
  unfold setKeyStep
  rcases key with _ | k
  · exact inv_transfer_same _ _ hbase rfl rfl rfl rfl rfl rfl
  · by_cases ht : jsTrim k = ""
    · rcases hs with iv | sm | m <;>
        simp only [ht, if_true] <;>
        exact inv_transfer_same _ _ hbase rfl rfl rfl rfl rfl rfl
    · rcases hs with iv | sm | m
      · simp only [ht, if_false]
        rcases iv with _ | iv
        · exact inv_transfer_same _ _ hbase rfl rfl rfl rfl rfl rfl
        · rcases iv with n | _
          · by_cases hn : (0 : Int) < n
            · simp only [hn, if_true]
              exact inv_transfer_same _ _ hbase rfl rfl rfl rfl rfl rfl
            · simp only [hn, if_false]
              exact inv_transfer_same _ _ hbase rfl rfl rfl rfl rfl rfl
          · exact inv_transfer_same _ _ hbase rfl rfl rfl rfl rfl rfl
      · simp only [ht, if_false]
        exact inv_transfer_same _ _ hbase rfl rfl rfl rfl rfl rfl
      · simp only [ht, if_false]
        exact inv_transfer_same _ _ hbase rfl rfl rfl rfl rfl rfl

/-- `processIfNeeded`'s synchronous prefix preserves the invariant:
starting a round moves the live pending map and completed set into the
round snapshot, leaving the effective classes unchanged. -/
theorem inv_poll (s : ClientState) (h : Inv s) : Inv (processIfNeededStart s).1 := by
  unfold processIfNeededStart
  by_cases h1 : (s.broken || s.processing || !keyTruthy s.key) = true
  · rw [if_pos h1]
    exact h
  · rw [if_neg h1]
    by_cases h2 : (s.pending.length = 0 && s.active.length = 0 && s.completed.length = 0) = true
    · rw [if_pos h2]
      exact h
    · rw [if_neg h2]
      apply inv_transfer_mem s _ h
      · intro k
        show k ∈ keysOf ([] : List (Nat × Request)) ++ _ ↔ _
        rw [mem_pendK]
        simp [keysOf, pendK, List.mem_flatten]
      · intro k
        exact Iff.rfl
      · intro k
        show k ∈ ([] : List Nat) ++ _ ↔ _
        rw [mem_compK]
        simp [compK, List.mem_flatten]
      · intro k
        rfl
      · rfl
      · show (keysOf ([] : List (Nat × Request)) ++ _).Nodup
        have hpe : (keysOf ([] : List (Nat × Request)) ++
            ((({ batchToSend := s.pending, completedSnapshot := s.completed } : Round) ::
              s.inflight).map (fun r => keysOf r.batchToSend)).flatten) =
            pendK s := by
          simp [keysOf, pendK]
        rw [hpe]
        exact h.pendNodup

/-! ### The `results` fold of `handleBatchResponse`

`handleResultEntry` only ever moves a key from `active` to `completed`,
settling it at that moment.  `ResRel s0 s1` packages what one or more such
steps can do; it is reflexive, transitive, and holds for each step. -/

structure ResRel (s0 s1 : ClientState) : Prop where
  pending_eq : s1.pending = s0.pending
  inflight_eq : s1.inflight = s0.inflight
  nextKey_eq : s1.nextKey = s0.nextKey
  key_eq : s1.key = s0.key
  broken_eq : s1.broken = s0.broken
  pollRate_eq : s1.pollRate = s0.pollRate
  processing_eq : s1.processing = s0.processing
  error_eq : s1.error = s0.error
  act_sub : ∀ k, k ∈ actK s1 → k ∈ actK s0
  act_case : ∀ k, k ∈ actK s0 → k ∈ actK s1 ∨ k ∈ s1.completed
  settled_mono : ∀ k, isSettled s0 k = true → isSettled s1 k = true
  settled_new : ∀ k, isSettled s1 k = true → isSettled s0 k = true ∨ k ∈ actK s0
  comp_mono : ∀ k, k ∈ s0.completed → k ∈ s1.completed
  comp_new : ∀ k, k ∈ s1.completed →
    k ∈ s0.completed ∨ (k ∈ actK s0 ∧ isSettled s1 k = true)
  actUns_pres : (∀ k, k ∈ actK s0 → ¬ isSettled s0 k = true) →
    ∀ k, k ∈ actK s1 → ¬ isSettled s1 k = true

theorem ResRel.refl (s : ClientState) : ResRel s s := by
  constructor <;> first
    | rfl
    | (intro k hk; first | exact hk | exact Or.inl hk)
    | (intro h k hk; exact h k hk)

theorem ResRel.trans {s0 s1 s2 : ClientState} (a : ResRel s0 s1) (b : ResRel s1 s2) :
    ResRel s0 s2 := by
  constructor
  · rw [b.pending_eq, a.pending_eq]
  · rw [b.inflight_eq, a.inflight_eq]
  · rw [b.nextKey_eq, a.nextKey_eq]
  · rw [b.key_eq, a.key_eq]
  · rw [b.broken_eq, a.broken_eq]
  · rw [b.pollRate_eq, a.pollRate_eq]
  · rw [b.processing_eq, a.processing_eq]
  · rw [b.error_eq, a.error_eq]
  · intro k hk
    exact a.act_sub k (b.act_sub k hk)
  · intro k hk
    rcases a.act_case k hk with h1 | h1
    · rcases b.act_case k h1 with h2 | h2
      · exact Or.inl h2
      · exact Or.inr h2
    · exact Or.inr (b.comp_mono k h1)
  · intro k hk
    exact b.settled_mono k (a.settled_mono k hk)
  · intro k hk
    rcases b.settled_new k hk with h1 | h1
    · exact a.settled_new k h1
    · exact Or.inr (a.act_sub k h1)
  · intro k hk
    exact b.comp_mono k (a.comp_mono k hk)
  · intro k hk
    rcases b.comp_new k hk with h1 | h1
    · rcases a.comp_new k h1 with h2 | h2
      · exact Or.inl h2
      · exact Or.inr ⟨h2.1, b.settled_mono k h2.2⟩
    · exact Or.inr ⟨a.act_sub k h1.1, h1.2⟩
  · intro h k hk
    exact b.actUns_pres (a.actUns_pres h) k hk

theorem resRel_handleResultEntry (s : ClientState) (e : ResultEntry) :
    ResRel s (handleResultEntry s e) := by
  unfold handleResultEntry
  cases hl : lookup s.active e.requestKey with
  | none => exact ResRel.refl s
  | some req =>
    by_cases hst : e.status = "done"
    · rw [if_pos hst]
      have hk0 : e.requestKey ∈ actK s := lookup_isSome_iff.mp (by rw [hl]; rfl)
      have hsettled : ∀ k, isSettled { s with
          settled := if e.isError then
              settlePut s.settled e.requestKey
                (.rejected (match e.result with
                  | some (.vStr m) => m
                  | _ => "Execution failed"))
            else settlePut s.settled e.requestKey (.resolved (parseResult e.result)),
          active := mapDelete s.active e.requestKey,
          completed := setAdd s.completed e.requestKey } k = true ↔
          isSettled s k = true ∨ k = e.requestKey := by
        intro k
        by_cases he : e.isError <;>
          simp only [isSettled, he, if_true, if_false] <;>
          exact settledB_settlePut
      -- the two error/value branches give the same queue shape
      constructor
      · rfl
      · rfl
      · rfl
      · rfl
      · rfl
      · rfl
      · rfl
      · rfl
      · intro k hk
        have hmm := mem_keysOf_mapDelete.mp hk
        exact hmm.1
      · intro k hk
        by_cases hke : k = e.requestKey
        · subst hke
          exact Or.inr (mem_setAdd.mpr (Or.inr rfl))
        · exact Or.inl (mem_keysOf_mapDelete.mpr ⟨hk, hke⟩)
      · intro k hk
        exact (hsettled k).mpr (Or.inl hk)
      · intro k hk
        rcases (hsettled k).mp hk with h1 | rfl
        · exact Or.inl h1
        · exact Or.inr hk0
      · intro k hk
        exact mem_setAdd.mpr (Or.inl hk)
      · intro k hk
        rcases mem_setAdd.mp hk with h1 | rfl
        · exact Or.inl h1
        · exact Or.inr ⟨hk0, (hsettled _).mpr (Or.inr rfl)⟩
      · intro h k hk
        have hmem := mem_keysOf_mapDelete.mp hk
        intro hcon
        rcases (hsettled k).mp hcon with h1 | h1
        · exact h k hmem.1 h1
        · exact hmem.2 h1
    · rw [if_neg hst]
      exact ResRel.refl s

theorem resRel_foldResults (s : ClientState) (l : List ResultEntry) :
    ResRel s (l.foldl handleResultEntry s) := by
  induction l generalizing s with
  | nil => exact ResRel.refl s
  | cons e rest ih =>
    rw [List.foldl_cons]
    exact ResRel.trans (resRel_handleResultEntry s e) (ih (handleResultEntry s e))

/-! ### The `created` fold of `handleBatchResponse` -/

/-- The `data.created?.forEach` loop over a fixed snapshot `batch`. -/
def foldCreated (batch : List (Nat × Request)) (s : ClientState)
    (cs : List CreatedEntry) : ClientState :=
  cs.foldl (handleCreatedEntry batch) s

theorem handleCreatedEntry_fields (batch : List (Nat × Request)) (s : ClientState)
    (e : CreatedEntry) :
    (handleCreatedEntry batch s e).pending = s.pending ∧
    (handleCreatedEntry batch s e).completed = s.completed ∧
    (handleCreatedEntry batch s e).inflight = s.inflight ∧
    (handleCreatedEntry batch s e).nextKey = s.nextKey ∧
    (handleCreatedEntry batch s e).key = s.key ∧
    (handleCreatedEntry batch s e).broken = s.broken ∧
    (handleCreatedEntry batch s e).pollRate = s.pollRate ∧
    (handleCreatedEntry batch s e).processing = s.processing ∧
    (handleCreatedEntry batch s e).error = s.error := by
  unfold handleCreatedEntry
  cases lookup batch e.requestKey with
  | none => exact ⟨rfl, rfl, rfl, rfl, rfl, rfl, rfl, rfl, rfl⟩
  | some req =>
    simp only []
    by_cases hst : e.status = "pending"
    · rw [if_pos hst]
      exact ⟨rfl, rfl, rfl, rfl, rfl, rfl, rfl, rfl, rfl⟩
    · rw [if_neg hst]
      exact ⟨rfl, rfl, rfl, rfl, rfl, rfl, rfl, rfl, rfl⟩

theorem foldCreated_fields (batch : List (Nat × Request)) (cs : List CreatedEntry)
    (s : ClientState) :
    (foldCreated batch s cs).pending = s.pending ∧
    (foldCreated batch s cs).completed = s.completed ∧
    (foldCreated batch s cs).inflight = s.inflight ∧
    (foldCreated batch s cs).nextKey = s.nextKey ∧
    (foldCreated batch s cs).key = s.key ∧
    (foldCreated batch s cs).broken = s.broken ∧
    (foldCreated batch s cs).pollRate = s.pollRate ∧
    (foldCreated batch s cs).processing = s.processing ∧
    (foldCreated batch s cs).error = s.error := by
  induction cs generalizing s with
  | nil => exact ⟨rfl, rfl, rfl, rfl, rfl, rfl, rfl, rfl, rfl⟩
  | cons e rest ih =>
    have h1 := handleCreatedEntry_fields batch s e
    have h2 := ih (handleCreatedEntry batch s e)
    rw [show foldCreated batch s (e :: rest) =
      foldCreated batch (handleCreatedEntry batch s e) rest from rfl]
    refine ⟨?_, ?_, ?_, ?_, ?_, ?_, ?_, ?_, ?_⟩
    · rw [h2.1, h1.1]
    · rw [h2.2.1, h1.2.1]
    · rw [h2.2.2.1, h1.2.2.1]
    · rw [h2.2.2.2.1, h1.2.2.2.1]
    · rw [h2.2.2.2.2.1, h1.2.2.2.2.1]
    · rw [h2.2.2.2.2.2.1, h1.2.2.2.2.2.1]
    · rw [h2.2.2.2.2.2.2.1, h1.2.2.2.2.2.2.1]
    · rw [h2.2.2.2.2.2.2.2.1, h1.2.2.2.2.2.2.2.1]
    · rw [h2.2.2.2.2.2.2.2.2, h1.2.2.2.2.2.2.2.2]

theorem foldCreated_act_mono (batch : List (Nat × Request)) (cs : List CreatedEntry)
    (s : ClientState) (k : Nat) (hk : k ∈ actK s) : k ∈ actK (foldCreated batch s cs) := by
  induction cs generalizing s with
  | nil => exact hk
  | cons e rest ih =>
    apply ih
    unfold handleCreatedEntry
    cases lookup batch e.requestKey with
    | none => exact hk
    | some req =>
      simp only []
      by_cases hst : e.status = "pending"
      · rw [if_pos hst]
        exact mem_keysOf_mapSet.mpr (Or.inl hk)
      · rw [if_neg hst]
        exact hk

theorem foldCreated_act_sub (batch : List (Nat × Request)) (cs : List CreatedEntry)
    (s : ClientState) (k : Nat) (hk : k ∈ actK (foldCreated batch s cs)) :
    k ∈ actK s ∨ k ∈ keysOf batch := by
  induction cs generalizing s with
  | nil => exact Or.inl hk
  | cons e rest ih =>
    rcases ih (handleCreatedEntry batch s e) hk with h1 | h1
    · unfold handleCreatedEntry at h1
      cases hl : lookup batch e.requestKey with
      | none =>
        rw [hl] at h1
        exact Or.inl h1
      | some req =>
        rw [hl] at h1
        simp only [] at h1
        by_cases hst : e.status = "pending"
        · rw [if_pos hst] at h1
          rcases mem_keysOf_mapSet.mp h1 with h2 | rfl
          · exact Or.inl h2
          · exact Or.inr (lookup_isSome_iff.mp (by rw [hl]; rfl))
        · rw [if_neg hst] at h1
          exact Or.inl h1
    · exact Or.inr h1

theorem foldCreated_settled_mono (batch : List (Nat × Request)) (cs : List CreatedEntry)
    (s : ClientState) (k : Nat) (hk : isSettled s k = true) :
    isSettled (foldCreated batch s cs) k = true := by
  induction cs generalizing s with
  | nil => exact hk
  | cons e rest ih =>
    apply ih
    unfold handleCreatedEntry
    cases lookup batch e.requestKey with
    | none => exact hk
    | some req =>
      simp only []
      by_cases hst : e.status = "pending"
      · rw [if_pos hst]
        exact hk
      · rw [if_neg hst]
        exact settledB_settlePut_mono hk

theorem foldCreated_settled_sub (batch : List (Nat × Request)) (cs : List CreatedEntry)
    (s : ClientState) (k : Nat) (hk : isSettled (foldCreated batch s cs) k = true) :
    isSettled s k = true ∨ k ∈ keysOf batch := by
  induction cs generalizing s with
  | nil => exact Or.inl hk
  | cons e rest ih =>
    rcases ih (handleCreatedEntry batch s e) hk with h1 | h1
    · unfold handleCreatedEntry at h1
      cases hl : lookup batch e.requestKey with
      | none =>
        rw [hl] at h1
        exact Or.inl h1
      | some req =>
        rw [hl] at h1
        simp only [] at h1
        by_cases hst : e.status = "pending"
        · rw [if_pos hst] at h1
          exact Or.inl h1
        · rw [if_neg hst] at h1
          rcases settledB_settlePut.mp h1 with h2 | rfl
          · exact Or.inl h2
          · exact Or.inr (lookup_isSome_iff.mp (by rw [hl]; rfl))
    · exact Or.inr h1

/-- Every batch key acknowledged somewhere in `cs` ends up active or
settled after the fold. -/
theorem foldCreated_covered (batch : List (Nat × Request)) (cs : List CreatedEntry)
    (s : ClientState) (k : Nat) (hkb : k ∈ keysOf batch)
    (hkc : k ∈ cs.map CreatedEntry.requestKey) :
    k ∈ actK (foldCreated batch s cs) ∨ isSettled (foldCreated batch s cs) k = true := by
  induction cs generalizing s with
  | nil => simp at hkc
  | cons e rest ih =>
    rw [List.map_cons, List.mem_cons] at hkc
    rcases hkc with h1 | h1
    · -- the head entry acknowledges k
      by_cases hrest : k ∈ rest.map CreatedEntry.requestKey
      · exact ih (handleCreatedEntry batch s e) hrest
      · -- k is settled or activated right now, and stays so
        have hl : (lookup batch k).isSome = true := lookup_isSome_iff.mpr hkb
        rcases ho : lookup batch k with _ | req
        · rw [ho] at hl; simp at hl
        · have heq : e.requestKey = k := h1.symm
          unfold foldCreated
          rw [List.foldl_cons]
          unfold handleCreatedEntry
          rw [heq, ho]
          simp only []
          by_cases hst : e.status = "pending"
          · rw [if_pos hst]
            exact Or.inl (foldCreated_act_mono batch rest _ k
              (mem_keysOf_mapSet.mpr (Or.inr rfl)))
          · rw [if_neg hst]
            exact Or.inr (foldCreated_settled_mono batch rest _ k
              (settledB_settlePut.mpr (Or.inr rfl)))
    · exact ih (handleCreatedEntry batch s e) h1

/-- Provided the acknowledged keys are pairwise distinct and every
acknowledged batch key is fresh (unsettled, not yet active), active keys
remain unsettled through the fold. -/
theorem foldCreated_actUns (batch : List (Nat × Request)) (cs : List CreatedEntry)
    (s : ClientState)
    (hnd : (cs.map CreatedEntry.requestKey).Nodup)
    (hfresh : ∀ k, k ∈ keysOf batch → k ∈ cs.map CreatedEntry.requestKey →
      ¬ isSettled s k = true ∧ k ∉ actK s)
    (huns : ∀ k, k ∈ actK s → ¬ isSettled s k = true) :
    ∀ k, k ∈ actK (foldCreated batch s cs) → ¬ isSettled (foldCreated batch s cs) k = true := by
  induction cs generalizing s with
  | nil => exact huns
  | cons e rest ih =>
    have hndr : (rest.map CreatedEntry.requestKey).Nodup := (List.nodup_cons.mp (by simpa using hnd)).2
    have hhr : e.requestKey ∉ rest.map CreatedEntry.requestKey :=
      (List.nodup_cons.mp (by simpa using hnd)).1
    show ∀ k, k ∈ actK (foldCreated batch (handleCreatedEntry batch s e) rest) → _
    apply ih (handleCreatedEntry batch s e) hndr
    · -- freshness is preserved for the remaining entries
      intro k hkb hkr
      have hkne : k ≠ e.requestKey := fun hke => hhr (hke ▸ hkr)
      have hkf := hfresh k hkb (by simp [hkr])
      unfold handleCreatedEntry
      cases hl : lookup batch e.requestKey with
      | none => exact hkf
      | some req =>
        simp only []
        by_cases hst : e.status = "pending"
        · rw [if_pos hst]
          refine ⟨hkf.1, ?_⟩
          intro hm
          rcases mem_keysOf_mapSet.mp hm with h2 | h2
          · exact hkf.2 h2
          · exact hkne h2
        · rw [if_neg hst]
          refine ⟨?_, hkf.2⟩
          intro hm
          rcases settledB_settlePut.mp hm with h2 | h2
          · exact hkf.1 h2
          · exact hkne h2
    · -- active keys of the intermediate state are unsettled
      intro k hk
      unfold handleCreatedEntry at hk ⊢
      cases hl : lookup batch e.requestKey with
      | none =>
        rw [hl] at hk
        exact huns k hk
      | some req =>
        rw [hl] at hk
        simp only [] at hk ⊢
        have hke : e.requestKey ∈ keysOf batch := lookup_isSome_iff.mp (by rw [hl]; rfl)
        have hef := hfresh e.requestKey hke (by simp)
        by_cases hst : e.status = "pending"
        · rw [if_pos hst] at hk ⊢
          rcases mem_keysOf_mapSet.mp hk with h2 | rfl
          · exact huns k h2
          · exact hef.1
        · rw [if_neg hst] at hk ⊢
          intro hcon
          rcases settledB_settlePut.mp hcon with h2 | rfl
          · exact huns k hk h2
          · exact hef.2 hk

/-! ### Assembly of the round-completion invariant proofs -/

theorem adoptInterval_fields (s : ClientState) (iv : Option WireInterval) :
    (adoptInterval s iv).pending = s.pending ∧
    (adoptInterval s iv).active = s.active ∧
    (adoptInterval s iv).completed = s.completed ∧
    (adoptInterval s iv).settled = s.settled ∧
    (adoptInterval s iv).inflight = s.inflight ∧
    (adoptInterval s iv).nextKey = s.nextKey := by
  unfold adoptInterval
  rcases iv with _ | iv
  · exact ⟨rfl, rfl, rfl, rfl, rfl, rfl⟩
  · rcases iv with n | _
    · exact ⟨rfl, rfl, rfl, rfl, rfl, rfl⟩
    · exact ⟨rfl, rfl, rfl, rfl, rfl, rfl⟩

theorem flatten_map_eq_of_get? (f : α → List β) {l : List α} {i : Nat} {r : α}
    (h : l.get? i = some r) :
    (l.map f).flatten =
      ((l.take i).map f).flatten ++ (f r ++ ((l.drop (i + 1)).map f).flatten) := by
  conv_lhs => rw [eq_append_of_get? h]
  simp [List.map_append, List.flatten_append]

theorem flatten_map_removeIdx (f : α → List β) (l : List α) (i : Nat) :
    ((removeIdx l i).map f).flatten =
      ((l.take i).map f).flatten ++ ((l.drop (i + 1)).map f).flatten := by
  unfold removeIdx
  simp [List.map_append, List.flatten_append]

/-- From `Nodup` of `A ++ (B ++ (C ++ D))`: removing the `C` block keeps
`Nodup`, and every element of `C` is absent from the rest. -/
theorem nodup_extract {A B C D : List Nat} (h : (A ++ (B ++ (C ++ D))).Nodup) :
    (A ++ (B ++ D)).Nodup ∧ ∀ x, x ∈ C → x ∉ A ++ (B ++ D) := by
  rw [List.nodup_append] at h
  obtain ⟨hA, hBCD, hdA⟩ := h
  rw [List.nodup_append] at hBCD
  obtain ⟨hB, hCD, hdB⟩ := hBCD
  rw [List.nodup_append] at hCD
  obtain ⟨hC, hD, hdC⟩ := hCD
  constructor
  · rw [List.nodup_append]
    refine ⟨hA, ?_, ?_⟩
    · rw [List.nodup_append]
      refine ⟨hB, hD, ?_⟩
      intro a ha hd
      exact hdB ha (List.mem_append.mpr (Or.inr hd))
    · intro a ha hd
      rcases List.mem_append.mp hd with hd | hd
      · exact hdA ha (List.mem_append.mpr (Or.inl hd))
      · exact hdA ha (List.mem_append.mpr (Or.inr (List.mem_append.mpr (Or.inr hd))))
  · intro x hx hmem
    rcases List.mem_append.mp hmem with hm | hm
    · exact hdA hm (List.mem_append.mpr (Or.inr (List.mem_append.mpr (Or.inl hx))))
    · rcases List.mem_append.mp hm with hm | hm
      · exact hdB hm (List.mem_append.mpr (Or.inl hx))
      · exact hdC hx hm

/-- Completing a batch round successfully preserves the invariant,
provided the response's `created` acknowledgements are pairwise distinct
and cover every call the round had sent. -/
theorem inv_roundOk_aux (s : ClientState) (i : Nat) (r : Round) (resp : BatchResp)
    (hr : s.inflight.get? i = some r) (h : Inv s)
    (hnd : (resp.created.map CreatedEntry.requestKey).Nodup)
    (hcov : ∀ k, k ∈ keysOf r.batchToSend → k ∈ resp.created.map CreatedEntry.requestKey)
    (s' : ClientState) (hstep : finishRoundOkStep s i resp = some s') : Inv s' := by
  unfold finishRoundOkStep at hstep
  rw [hr] at hstep
  simp only [] at hstep
  injection hstep with hstep
  subst hstep
  -- names for the stages of the step
  set sA : ClientState := { s with inflight := removeIdx s.inflight i } with hsAdef
  set sB : ClientState := adoptInterval sA resp.intervalMs with hsBdef
  set sC : ClientState := resp.results.foldl handleResultEntry sB with hsCdef
  set sD : ClientState := foldCreated r.batchToSend sC resp.created with hsDdef
  have hgoal : handleBatchResponse sA resp r.batchToSend = sD := rfl
  -- the round's snapshot key blocks
  have hfb := adoptInterval_fields sA resp.intervalMs
  have R : ResRel sB sC := resRel_foldResults sB resp.results
  have FD := foldCreated_fields r.batchToSend resp.created sC
  -- field chains
  have hBact : sB.active = s.active := by rw [hfb.2.1]
  have hBset : sB.settled = s.settled := by rw [hfb.2.2.2.1]
  have hBcomp : sB.completed = s.completed := by rw [hfb.2.2.1]
  have hBpend : sB.pending = s.pending := by rw [hfb.1]
  have hBinf : sB.inflight = removeIdx s.inflight i := by rw [hfb.2.2.2.2.1]
  have hBnext : sB.nextKey = s.nextKey := by rw [hfb.2.2.2.2.2]
  have hCpend : sC.pending = s.pending := by rw [R.pending_eq, hBpend]
  have hCinf : sC.inflight = removeIdx s.inflight i := by rw [R.inflight_eq, hBinf]
  have hCnext : sC.nextKey = s.nextKey := by rw [R.nextKey_eq, hBnext]
  have hDpend : sD.pending = s.pending := by rw [FD.1, hCpend]
  have hDcomp : sD.completed = sC.completed := FD.2.1
  have hDinf : sD.inflight = removeIdx s.inflight i := by rw [FD.2.2.1, hCinf]
  have hDnext : sD.nextKey = s.nextKey := by rw [FD.2.2.2.1, hCnext]
  -- actK/settled transfer along B
  have hActB : actK sB = actK s := by unfold actK; rw [hBact]
  have hSetB : ∀ k, isSettled sB k = isSettled s k := by
    intro k; unfold isSettled; rw [hBset]
  -- pendK decomposition of s along the extracted round
  have hPs : pendK s = keysOf s.pending ++
      (((s.inflight.take i).map (fun q => keysOf q.batchToSend)).flatten ++
        (keysOf r.batchToSend ++
          ((s.inflight.drop (i + 1)).map (fun q => keysOf q.batchToSend)).flatten)) := by
    unfold pendK
    rw [flatten_map_eq_of_get? (fun q => keysOf q.batchToSend) hr]
  have hPA : pendK sA = keysOf s.pending ++
      (((s.inflight.take i).map (fun q => keysOf q.batchToSend)).flatten ++
        ((s.inflight.drop (i + 1)).map (fun q => keysOf q.batchToSend)).flatten) := by
    unfold pendK
    rw [show sA.inflight = removeIdx s.inflight i from rfl,
      flatten_map_removeIdx (fun q => keysOf q.batchToSend) s.inflight i]
  have hndex := nodup_extract (A := keysOf s.pending)
    (B := ((s.inflight.take i).map (fun q => keysOf q.batchToSend)).flatten)
    (C := keysOf r.batchToSend)
    (D := ((s.inflight.drop (i + 1)).map (fun q => keysOf q.batchToSend)).flatten)
    (by rw [← hPs]; exact h.pendNodup)
  have hndA : (pendK sA).Nodup := by rw [hPA]; exact hndex.1
  have hdisj : ∀ x, x ∈ keysOf r.batchToSend → x ∉ pendK sA := by
    intro x hx
    rw [hPA]
    exact hndex.2 x hx
  have haPA : ∀ x, x ∈ pendK sA → x ∈ pendK s := by
    intro x hx
    rw [hPA] at hx
    rw [hPs]
    rcases List.mem_append.mp hx with h1 | h1
    · exact List.mem_append.mpr (Or.inl h1)
    · rcases List.mem_append.mp h1 with h2 | h2
      · exact List.mem_append.mpr (Or.inr (List.mem_append.mpr (Or.inl h2)))
      · exact List.mem_append.mpr (Or.inr (List.mem_append.mpr (Or.inr
          (List.mem_append.mpr (Or.inr h2)))))
  have haPB : ∀ x, x ∈ pendK s → x ∈ pendK sA ∨ x ∈ keysOf r.batchToSend := by
    intro x hx
    rw [hPs] at hx
    rw [hPA]
    rcases List.mem_append.mp hx with h1 | h1
    · exact Or.inl (List.mem_append.mpr (Or.inl h1))
    · rcases List.mem_append.mp h1 with h2 | h2
      · exact Or.inl (List.mem_append.mpr (Or.inr (List.mem_append.mpr (Or.inl h2))))
      · rcases List.mem_append.mp h2 with h3 | h3
        · exact Or.inr h3
        · exact Or.inl (List.mem_append.mpr (Or.inr (List.mem_append.mpr (Or.inr h3))))
  have haBT : ∀ x, x ∈ keysOf r.batchToSend → x ∈ pendK s := by
    intro x hx
    rw [hPs]
    exact List.mem_append.mpr (Or.inr (List.mem_append.mpr (Or.inr
      (List.mem_append.mpr (Or.inl hx)))))
  -- compK decomposition of s
  have hCs : compK s = s.completed ++
      (((s.inflight.take i).map Round.completedSnapshot).flatten ++
        (r.completedSnapshot ++
          ((s.inflight.drop (i + 1)).map Round.completedSnapshot).flatten)) := by
    unfold compK
    rw [flatten_map_eq_of_get? Round.completedSnapshot hr]
  -- pendK is unchanged from stage A through stage D
  have hPD : pendK sD = pendK sA := by
    unfold pendK
    rw [hDpend, hDinf]
  -- batch-key facts at stage C
  have hBT_notActS : ∀ x, x ∈ keysOf r.batchToSend → x ∉ actK s := by
    intro x hx
    exact h.pa x (haBT x hx)
  have hBT_unsS : ∀ x, x ∈ keysOf r.batchToSend → ¬ isSettled s x = true := by
    intro x hx
    exact h.pendUns x (haBT x hx)
  have hBT_notActC : ∀ x, x ∈ keysOf r.batchToSend → x ∉ actK sC := by
    intro x hx hc
    exact hBT_notActS x hx (by rw [← hActB]; exact R.act_sub x hc)
  have hBT_unsC : ∀ x, x ∈ keysOf r.batchToSend → ¬ isSettled sC x = true := by
    intro x hx hc
    rcases R.settled_new x hc with h1 | h1
    · exact hBT_unsS x hx (by rw [← hSetB]; exact h1)
    · exact hBT_notActS x hx (by rw [← hActB]; exact h1)
  -- settlement monotonicity s → sD
  have hSmono : ∀ x, isSettled s x = true → isSettled sD x = true := by
    intro x hx
    exact foldCreated_settled_mono _ _ _ x (R.settled_mono x (by rw [hSetB]; exact hx))
  -- invariant for stage D
  have hInvD : Inv sD := by
    constructor
    · -- bound
      intro k hk
      rw [hDnext]
      rcases hk with hk | hk | hk | hk
      · exact h.bound k (Or.inl (haPA k (by rw [← hPD]; exact hk)))
      · rcases foldCreated_act_sub _ _ _ k hk with h1 | h1
        · exact h.bound k (Or.inr (Or.inl (by rw [← hActB]; exact R.act_sub k h1)))
        · exact h.bound k (Or.inl (haBT k h1))
      · have hk2 : k ∈ sD.completed ++
            ((removeIdx s.inflight i).map Round.completedSnapshot).flatten := by
          unfold compK at hk
          rw [hDinf] at hk
          exact hk
        rcases List.mem_append.mp hk2 with h1 | h1
        · rw [hDcomp] at h1
          rcases R.comp_new k h1 with h2 | h2
          · rw [hBcomp] at h2
            exact h.bound k (Or.inr (Or.inr (Or.inl (by
              unfold compK
              exact List.mem_append.mpr (Or.inl h2)))))
          · exact h.bound k (Or.inr (Or.inl (by rw [← hActB]; exact h2.1)))
        · -- snapshot part of a remaining round
          rw [flatten_map_removeIdx Round.completedSnapshot s.inflight i] at h1
          apply h.bound k
          refine Or.inr (Or.inr (Or.inl ?_))
          rw [hCs]
          rcases List.mem_append.mp h1 with h2 | h2
          · exact List.mem_append.mpr (Or.inr (List.mem_append.mpr (Or.inl h2)))
          · exact List.mem_append.mpr (Or.inr (List.mem_append.mpr (Or.inr
              (List.mem_append.mpr (Or.inr h2)))))
      · rcases foldCreated_settled_sub _ _ _ k hk with h1 | h1
        · rcases R.settled_new k h1 with h2 | h2
          · exact h.bound k (Or.inr (Or.inr (Or.inr (by rw [← hSetB]; exact h2))))
          · exact h.bound k (Or.inr (Or.inl (by rw [← hActB]; exact h2)))
        · exact h.bound k (Or.inl (haBT k h1))
    · rw [hPD]
      exact hndA
    · -- pa
      intro k hk hact
      rw [hPD] at hk
      rcases foldCreated_act_sub _ _ _ k hact with h1 | h1
      · exact h.pa k (haPA k hk) (by rw [← hActB]; exact R.act_sub k h1)
      · exact hdisj k h1 hk
    · -- pendUns
      intro k hk hset
      rw [hPD] at hk
      rcases foldCreated_settled_sub _ _ _ k hset with h1 | h1
      · rcases R.settled_new k h1 with h2 | h2
        · exact h.pendUns k (haPA k hk) (by rw [← hSetB]; exact h2)
        · exact h.pa k (haPA k hk) (by rw [← hActB]; exact h2)
      · exact hdisj k h1 hk
    · -- actUns
      apply foldCreated_actUns r.batchToSend resp.created sC hnd
      · intro k hkb _
        exact ⟨hBT_unsC k hkb, hBT_notActC k hkb⟩
      · intro k hk
        apply R.actUns_pres
        · intro x hx hc
          exact h.actUns x (by rw [← hActB]; exact hx) (by rw [← hSetB]; exact hc)
        · exact hk
    · -- compSet
      intro k hk
      have hk2 : k ∈ sD.completed ++
          ((removeIdx s.inflight i).map Round.completedSnapshot).flatten := by
        unfold compK at hk
        rw [hDinf] at hk
        exact hk
      rcases List.mem_append.mp hk2 with h1 | h1
      · rw [hDcomp] at h1
        rcases R.comp_new k h1 with h2 | h2
        · rw [hBcomp] at h2
          exact hSmono k (h.compSet k (by
            unfold compK
            exact List.mem_append.mpr (Or.inl h2)))
        · exact foldCreated_settled_mono _ _ _ k h2.2
      · rw [flatten_map_removeIdx Round.completedSnapshot s.inflight i] at h1
        apply hSmono
        apply h.compSet
        rw [hCs]
        rcases List.mem_append.mp h1 with h2 | h2
        · exact List.mem_append.mpr (Or.inr (List.mem_append.mpr (Or.inl h2)))
        · exact List.mem_append.mpr (Or.inr (List.mem_append.mpr (Or.inr
            (List.mem_append.mpr (Or.inr h2)))))
    · -- total
      intro k hk
      rw [hDnext] at hk
      have hcompD : ∀ x, x ∈ sC.completed → x ∈ compK sD := by
        intro x hx
        unfold compK
        rw [hDcomp]
        exact List.mem_append.mpr (Or.inl hx)
      rcases h.total k hk with hc | hc | hc | hc
      · rcases haPB k hc with h1 | h1
        · exact Or.inl (by rw [hPD]; exact h1)
        · rcases foldCreated_covered r.batchToSend resp.created sC k h1 (hcov k h1) with h2 | h2
          · exact Or.inr (Or.inl h2)
          · exact Or.inr (Or.inr (Or.inr h2))
      · rcases R.act_case k (by rw [hActB]; exact hc) with h1 | h1
        · exact Or.inr (Or.inl (foldCreated_act_mono _ _ _ k h1))
        · exact Or.inr (Or.inr (Or.inl (hcompD k h1)))
      · rw [hCs] at hc
        rcases List.mem_append.mp hc with h1 | h1
        · -- live completed: carried through the folds
          have h2 : k ∈ sC.completed := R.comp_mono k (by rw [hBcomp]; exact h1)
          exact Or.inr (Or.inr (Or.inl (hcompD k h2)))
        · rcases List.mem_append.mp h1 with h2 | h2
          · -- snapshot of an earlier round: still in flight
            refine Or.inr (Or.inr (Or.inl ?_))
            unfold compK
            rw [hDinf, flatten_map_removeIdx Round.completedSnapshot s.inflight i]
            exact List.mem_append.mpr (Or.inr (List.mem_append.mpr (Or.inl h2)))
          · rcases List.mem_append.mp h2 with h3 | h3
            · -- the acknowledged completed snapshot: dropped, but settled
              refine Or.inr (Or.inr (Or.inr ?_))
              apply hSmono
              apply h.compSet
              rw [hCs]
              exact List.mem_append.mpr (Or.inr (List.mem_append.mpr (Or.inr
                (List.mem_append.mpr (Or.inl h3)))))
            · refine Or.inr (Or.inr (Or.inl ?_))
              unfold compK
              rw [hDinf, flatten_map_removeIdx Round.completedSnapshot s.inflight i]
              exact List.mem_append.mpr (Or.inr (List.mem_append.mpr (Or.inr h3)))
      · exact Or.inr (Or.inr (Or.inr (hSmono k hc)))
  -- transfer to the final state (processing flag cleared)
  rw [hgoal]
  exact inv_transfer_same sD _ hInvD rfl rfl rfl rfl rfl rfl

/-- Restoring a failed round's snapshots into the live queues
(`handleBatchError` lines 600-603) preserves the invariant. -/
theorem inv_restore (s : ClientState) (i : Nat) (r : Round)
    (hr : s.inflight.get? i = some r) (h : Inv s) :
    Inv { s with
      pending := r.batchToSend.foldl
        (fun (m : List (Nat × Request)) (p : Nat × Request) => mapSet m p.1 p.2) s.pending,
      completed := r.completedSnapshot.foldl setAdd s.completed,
      inflight := removeIdx s.inflight i } := by
  set sB : ClientState := { s with
    pending := r.batchToSend.foldl
      (fun (m : List (Nat × Request)) (p : Nat × Request) => mapSet m p.1 p.2) s.pending,
    completed := r.completedSnapshot.foldl setAdd s.completed,
    inflight := removeIdx s.inflight i } with hsB
  have hPs : pendK s = keysOf s.pending ++
      (((s.inflight.take i).map (fun q => keysOf q.batchToSend)).flatten ++
        (keysOf r.batchToSend ++
          ((s.inflight.drop (i + 1)).map (fun q => keysOf q.batchToSend)).flatten)) := by
    unfold pendK
    rw [flatten_map_eq_of_get? (fun q => keysOf q.batchToSend) hr]
  have hCs : compK s = s.completed ++
      (((s.inflight.take i).map Round.completedSnapshot).flatten ++
        (r.completedSnapshot ++
          ((s.inflight.drop (i + 1)).map Round.completedSnapshot).flatten)) := by
    unfold compK
    rw [flatten_map_eq_of_get? Round.completedSnapshot hr]
  have hndex := nodup_extract (A := keysOf s.pending)
    (B := ((s.inflight.take i).map (fun q => keysOf q.batchToSend)).flatten)
    (C := keysOf r.batchToSend)
    (D := ((s.inflight.drop (i + 1)).map (fun q => keysOf q.batchToSend)).flatten)
    (by rw [← hPs]; exact h.pendNodup)
  have hPB : pendK sB = keysOf (r.batchToSend.foldl
      (fun (m : List (Nat × Request)) (p : Nat × Request) => mapSet m p.1 p.2) s.pending) ++
      (((s.inflight.take i).map (fun q => keysOf q.batchToSend)).flatten ++
        ((s.inflight.drop (i + 1)).map (fun q => keysOf q.batchToSend)).flatten) := by
    unfold pendK
    rw [show sB.inflight = removeIdx s.inflight i from rfl,
      flatten_map_removeIdx (fun q => keysOf q.batchToSend) s.inflight i]
  have hmem : ∀ x, x ∈ pendK sB ↔ x ∈ pendK s := by
    intro x
    rw [hPB, hPs]
    rw [List.mem_append, mem_keysOf_foldl_mapSet]
    simp only [List.mem_append]
    tauto
  have hcmem : ∀ x, x ∈ compK sB ↔ x ∈ compK s := by
    intro x
    show x ∈ _ ++ _ ↔ _
    rw [show sB.inflight = removeIdx s.inflight i from rfl,
      flatten_map_removeIdx Round.completedSnapshot s.inflight i]
    rw [hCs]
    rw [List.mem_append, mem_foldl_setAdd]
    simp only [List.mem_append]
    tauto
  apply inv_transfer_mem s sB h hmem (fun k => Iff.rfl) hcmem (fun k => rfl) rfl
  -- Nodup of the restored effective pending
  rw [hPB]
  have hm : (keysOf s.pending).Nodup := by
    have hx := h.pendNodup
    unfold pendK at hx
    exact (List.nodup_append.mp hx).1
  rw [List.nodup_append]
  refine ⟨nodup_keysOf_foldl_mapSet hm, (List.nodup_append.mp hndex.1).2.1, ?_⟩
  intro a ha hb
  rw [mem_keysOf_foldl_mapSet] at ha
  rcases ha with ha | ha
  · exact (List.nodup_append.mp hndex.1).2.2 ha hb
  · exact hndex.2 a ha (List.mem_append.mpr (Or.inr hb))

/-- Completing a batch round with an error preserves the invariant
(restoration merges the snapshots back; a critical error additionally
resets the state, which settles all live requests). -/
theorem inv_roundErr_aux (s : ClientState) (i : Nat) (status : Option Nat)
    (errMsg : String) (serverMsg : Option String) (h : Inv s)
    (s' : ClientState)
    (hstep : finishRoundErrStep s i status errMsg serverMsg = some s') : Inv s' := by
  unfold finishRoundErrStep at hstep
  cases hr : s.inflight.get? i with
  | none =>
    rw [hr] at hstep
    exact absurd hstep (by simp)
  | some r =>
    rw [hr] at hstep
    simp only [] at hstep
    have hres := inv_restore s i r hr h
    by_cases h404 : status = some 404
    · have hcrit : (decide (status = some 404) || decide (status = some 500)) = true := by
        simp [h404]
      rw [if_pos hcrit, if_pos h404] at hstep
      injection hstep with hstep
      subst hstep
      have hres2 : Inv { s with
          pending := r.batchToSend.foldl
            (fun (m : List (Nat × Request)) (p : Nat × Request) => mapSet m p.1 p.2) s.pending,
          completed := r.completedSnapshot.foldl setAdd s.completed,
          inflight := removeIdx s.inflight i,
          error := some (jsOrElse serverMsg "Сессия не найдена. Создайте ключ заново."),
          broken := true,
          key := none } :=
        inv_transfer_same _ _ hres rfl rfl rfl rfl rfl rfl
      have hres3 := inv_resetStateEff _ hres2
      exact inv_transfer_same _ _ hres3 rfl rfl rfl rfl rfl rfl
    · by_cases h500 : status = some 500
      · have hcrit : (decide (status = some 404) || decide (status = some 500)) = true := by
          simp [h500]
        rw [if_pos hcrit, if_neg h404] at hstep
        injection hstep with hstep
        subst hstep
        have hres2 : Inv { s with
            pending := r.batchToSend.foldl
              (fun (m : List (Nat × Request)) (p : Nat × Request) => mapSet m p.1 p.2) s.pending,
            completed := r.completedSnapshot.foldl setAdd s.completed,
            inflight := removeIdx s.inflight i,
            error := some errMsg,
            broken := true } :=
          inv_transfer_same _ _ hres rfl rfl rfl rfl rfl rfl
        have hres3 := inv_resetStateEff _ hres2
        exact inv_transfer_same _ _ hres3 rfl rfl rfl rfl rfl rfl
      · have hcrit : (decide (status = some 404) || decide (status = some 500)) = false := by
          simp [h404, h500]
        rw [hcrit] at hstep
        rw [if_neg (by simp : ¬ (false : Bool) = true)] at hstep
        injection hstep with hstep
        subst hstep
        exact inv_transfer_same _ _ hres rfl rfl rfl rfl rfl rfl

/-- The server-behaviour assumption under which the queue-partition
invariant holds: every successful batch response's `created` list has
pairwise-distinct requestKeys and acknowledges every call of the round it
completes.  (Duplicate or missing acknowledgements break the invariant;
see the counterexample for claim C2.)  All other events are
unconstrained. -/
def CreatedOK (s : ClientState) (e : Event) : Prop :=
  match e with
  | .roundOk i resp =>
    (resp.created.map CreatedEntry.requestKey).Nodup ∧
    ∀ r, s.inflight.get? i = some r →
      ∀ k, k ∈ keysOf r.batchToSend → k ∈ resp.created.map CreatedEntry.requestKey
  | _ => True

theorem inv_step (s : ClientState) (e : Event) (hP : CreatedOK s e)
    (s2 : ClientState) (hstep : applyEvent s e = some s2) (h : Inv s) : Inv s2 := by
  cases e with
  | exec c =>
    injection hstep with hstep
    rw [← hstep]
    exact inv_exec s c h
  | setKey k hs =>
    injection hstep with hstep
    rw [← hstep]
    exact inv_setKey s k hs h
  | poll =>
    injection hstep with hstep
    rw [← hstep]
    exact inv_poll s h
  | roundOk i resp =>
    cases hri : s.inflight.get? i with
    | none =>
      unfold applyEvent finishRoundOkStep at hstep
      simp only [] at hstep
      rw [hri] at hstep
      exact absurd hstep (by simp)
    | some r =>
      exact inv_roundOk_aux s i r resp hri h hP.1 (hP.2 r hri) s2 hstep
  | roundErr i status errMsg serverMsg =>
    exact inv_roundErr_aux s i status errMsg serverMsg h s2 hstep

/-- The queue-partition invariant holds in every reachable state of a
well-acknowledging server. -/
theorem inv_reach (s : ClientState) (h : ReachP CreatedOK s) : Inv s := by
  induction h with
  | init => exact inv_init
  | step hre hP hstep ih =>
    exact inv_step _ _ hP _ hstep ih

/-- A settled promise stays settled across every event. -/
theorem settled_mono_step (s : ClientState) (e : Event) (s2 : ClientState)
    (hstep : applyEvent s e = some s2) (k : Nat) (hk : isSettled s k = true) :
    isSettled s2 k = true := by
  cases e with
  | exec c =>
    injection hstep with hstep
    rw [← hstep]
    unfold executeOrFallbackStep
    by_cases hg : (s.broken || !keyTruthy s.key) = true
    · rw [if_pos hg]
      exact hk
    · rw [if_neg hg]
      exact hk
  | setKey key hs =>
    injection hstep with hstep
    rw [← hstep]
    have hcs : isSettled (resetStateEff { s with broken := false, error := none }) k = true :=
      isSettled_resetStateEff.mpr (Or.inl hk)
    unfold setKeyStep
    rcases key with _ | key
    · exact hcs
    · by_cases ht : jsTrim key = ""
      · rcases hs with iv | sm | m <;> simp only [ht, if_true] <;> exact hcs
      · rcases hs with iv | sm | m
        · simp only [ht, if_false]
          rcases iv with _ | iv
          · exact hcs
          · rcases iv with n | _
            · by_cases hn : (0 : Int) < n
              · simp only [hn, if_true]
                exact hcs
              · simp only [hn, if_false]
                exact hcs
            · exact hcs
        · simp only [ht, if_false]
          exact hcs
        · simp only [ht, if_false]
          exact hcs
  | poll =>
    injection hstep with hstep
    rw [← hstep]
    unfold processIfNeededStart
    by_cases h1 : (s.broken || s.processing || !keyTruthy s.key) = true
    · rw [if_pos h1]
      exact hk
    · rw [if_neg h1]
      by_cases h2 : (s.pending.length = 0 && s.active.length = 0 && s.completed.length = 0) = true
      · rw [if_pos h2]
        exact hk
      · rw [if_neg h2]
        exact hk
  | roundOk i resp =>
    unfold applyEvent finishRoundOkStep at hstep
    simp only [] at hstep
    cases hri : s.inflight.get? i with
    | none =>
      rw [hri] at hstep
      exact absurd hstep (by simp)
    | some r =>
      rw [hri] at hstep
      simp only [] at hstep
      injection hstep with hstep
      rw [← hstep]
      show isSettled (handleBatchResponse { s with inflight := removeIdx s.inflight i }
        resp r.batchToSend) k = true
      apply foldCreated_settled_mono
      apply (resRel_foldResults (adoptInterval { s with inflight := removeIdx s.inflight i }
        resp.intervalMs) resp.results).settled_mono
      have hfa := adoptInterval_fields { s with inflight := removeIdx s.inflight i } resp.intervalMs
      show settledB _ k = true
      rw [hfa.2.2.2.1]
      exact hk
  | roundErr i status errMsg serverMsg =>
    unfold applyEvent finishRoundErrStep at hstep
    simp only [] at hstep
    cases hri : s.inflight.get? i with
    | none =>
      rw [hri] at hstep
      exact absurd hstep (by simp)
    | some r =>
      rw [hri] at hstep
      simp only [] at hstep
      by_cases h404 : status = some 404
      · have hcrit : (decide (status = some 404) || decide (status = some 500)) = true := by
          simp [h404]
        rw [if_pos hcrit, if_pos h404] at hstep
        injection hstep with hstep
        rw [← hstep]
        exact isSettled_resetStateEff.mpr (Or.inl (isSettled_resetStateEff.mpr (Or.inl hk)))
      · by_cases h500 : status = some 500
        · have hcrit : (decide (status = some 404) || decide (status = some 500)) = true := by
            simp [h500]
          rw [if_pos hcrit, if_neg h404] at hstep
          injection hstep with hstep
          rw [← hstep]
          exact isSettled_resetStateEff.mpr (Or.inl (isSettled_resetStateEff.mpr (Or.inl hk)))
        · have hcrit : (decide (status = some 404) || decide (status = some 500)) = false := by
            simp [h404, h500]
          rw [hcrit] at hstep
          rw [if_neg (by simp : ¬ (false : Bool) = true)] at hstep
          injection hstep with hstep
          rw [← hstep]
          exact hk

/-- The four-way classification of claim C2: a created requestKey sits in
exactly one of effective-pending, active, effective-completed, or
terminal (promise settled and key dropped from every queue); keys of the
first two classes are still unsettled. -/
def classifiedExactlyOnce (s : ClientState) (k : Nat) : Prop :=
  (k ∈ pendK s ∧ k ∉ actK s ∧ k ∉ compK s ∧ ¬ isSettled s k = true) ∨
  (k ∉ pendK s ∧ k ∈ actK s ∧ k ∉ compK s ∧ ¬ isSettled s k = true) ∨
  (k ∉ pendK s ∧ k ∉ actK s ∧ k ∈ compK s ∧ isSettled s k = true) ∨
  (k ∉ pendK s ∧ k ∉ actK s ∧ k ∉ compK s ∧ isSettled s k = true)

theorem inv_classified (s : ClientState) (h : Inv s) (k : Nat)
    (hk : k < s.nextKey) : classifiedExactlyOnce s k := by
  by_cases hc : k ∈ compK s
  · have hset := h.compSet k hc
    refine Or.inr (Or.inr (Or.inl ⟨?_, ?_, hc, hset⟩))
    · intro hp
      exact h.pendUns k hp hset
    · intro ha
      exact h.actUns k ha hset
  · rcases h.total k hk with h1 | h1 | h1 | h1
    · exact Or.inl ⟨h1, h.pa k h1, hc, h.pendUns k h1⟩
    · refine Or.inr (Or.inl ⟨?_, h1, hc, h.actUns k h1⟩)
      intro hp
      exact h.pa k hp h1
    · exact absurd h1 hc
    · refine Or.inr (Or.inr (Or.inr ⟨?_, ?_, hc, h1⟩))
      · intro hp
        exact h.pendUns k hp h1
      · intro ha
        exact h.actUns k ha h1

/-! ## The claims -/

/-- **C1.**  For every call to `executeOrFallback(apiCall, fallback)` made
while the connection is broken or no key is set, the returned promise is
exactly the one produced by `fallback()` (outcome `fallback`), and none of
the three queues nor the connection state is changed by the call: the
entire client state is returned unmodified. -/
theorem claim_exec_fallback_when_disconnected (s : ClientState) (c : ApiCall)
    (h : s.broken = true ∨ keyTruthy s.key = false) :
    executeOrFallbackStep s c = (s, ExecOutcome.fallback) := by
  unfold executeOrFallbackStep
  have hg : (s.broken || !keyTruthy s.key) = true := by
    rcases h with h | h <;> simp [h]
  rw [if_pos hg]

theorem claim_exec_fallback_when_disconnected_witness :
    keyTruthy initState.key = false ∧
    executeOrFallbackStep initState ⟨"crm.item.get", []⟩ =
      (initState, ExecOutcome.fallback) :=
  ⟨rfl, claim_exec_fallback_when_disconnected initState ⟨"crm.item.get", []⟩ (Or.inr rfl)⟩

/-- The observable snapshot of an idle, disconnected client (all queues
empty, no error, not processing); only the poll rate varies. -/
def idleSnapshot (pollRate : Int) : Snapshot :=
  { connected := false
    processing := false
    error := none
    pollRate := pollRate
    pendingCount := 0
    activeCount := 0
    completedCount := 0 }

/-- **C9.**  Calling `setKey(null)` twice in a row produces the same
observable state after each call - indeed the same full client state:
the second call is the identity on the state produced by the first, and
that state's snapshot is disconnected, not processing, with no error and
all three queue sizes zero (the handshake outcomes are irrelevant since
no handshake is performed for a null key). -/
theorem claim_setKeyNull_idempotent (s : ClientState) (hs1 hs2 : Handshake) :
    (setKeyStep (setKeyStep s none hs1).1 none hs2).1 = (setKeyStep s none hs1).1 ∧
    getState (setKeyStep s none hs1).1 = idleSnapshot s.pollRate :=
  ⟨rfl, rfl⟩

/-- A real schedule producing a recorded non-fatal error while the key is
set and the connection is not broken: connect, enqueue one call, start a
batch round, and let its POST time out. -/
def c10Trace : List Event :=
  [.setKey (some "k") (.ok none), .exec ⟨"m", []⟩, .poll,
   .roundErr 0 none "timeout of 1000ms exceeded" none]

def c10S : ClientState := (run c10Trace).getD initState

/-- **C10.**  `getState().connected` is true iff the connection is not
broken and a (truthy) key is set, with no condition on the recorded
error; the `isConnected` getter additionally requires the recorded error
to be absent (falsy).  Hence in the reachable state after a non-fatal
batch error with a key set, `getState().connected` is `true` while
`isConnected` is `false`. -/
theorem claim_connected_vs_isConnected :
    (∀ s : ClientState, (getState s).connected = (!s.broken && keyTruthy s.key)) ∧
    (∀ s : ClientState, isConnected s = (!s.broken && keyTruthy s.key && !errTruthy s.error)) ∧
    (run c10Trace).isSome = true ∧
    (getState c10S).connected = true ∧
    isConnected c10S = false :=
  ⟨fun _ => rfl, fun _ => rfl, rfl, rfl, rfl⟩

/-- **C3.**  If a batch round starts (snapshotting and clearing the live
pending/completed queues) and then fails with a non-fatal error (HTTP
status other than 404 and 500, e.g. a timeout or network failure, with no
intervening events), the union of requestKeys in the three live queues is
the same set as immediately before the round started, and no caller
promise is settled by the failed round (the settlement record is
unchanged). -/
theorem claim_nonfatal_round_preserves_keys (s : ClientState)
    (hstart : (processIfNeededStart s).2 = true)
    (status : Option Nat) (errMsg : String) (serverMsg : Option String)
    (h404 : status ≠ some 404) (h500 : status ≠ some 500)
    (s2 : ClientState)
    (hstep : finishRoundErrStep (processIfNeededStart s).1 0 status errMsg serverMsg =
      some s2) :
    (∀ k, k ∈ liveKeys s2 ↔ k ∈ liveKeys s) ∧ s2.settled = s.settled := by
  unfold processIfNeededStart at hstart hstep
  by_cases h1 : (s.broken || s.processing || !keyTruthy s.key) = true
  · rw [if_pos h1] at hstart
    simp at hstart
  · rw [if_neg h1] at hstart hstep
    by_cases h2 : (s.pending.length = 0 && s.active.length = 0 && s.completed.length = 0) = true
    · rw [if_pos h2] at hstart
      simp at hstart
    · rw [if_neg h2] at hstep
      unfold finishRoundErrStep at hstep
      simp only [List.get?] at hstep
      have hcrit : (decide (status = some 404) || decide (status = some 500)) = false := by
        simp [h404, h500]
      rw [hcrit, if_neg (by simp : ¬ (false : Bool) = true)] at hstep
      injection hstep with hstep
      subst hstep
      refine ⟨?_, rfl⟩
      intro k
      unfold liveKeys
      simp only [List.mem_append]
      rw [mem_keysOf_foldl_mapSet, mem_foldl_setAdd]
      simp only [keysOf, List.map_nil, List.not_mem_nil, false_or, List.mem_map]

/-- A connected client with one pending call: the state from which the
C3 witness starts (and fails) a round. -/
def c3Trace : List Event := [.setKey (some "k") (.ok none), .exec ⟨"m", []⟩]

def c3S : ClientState := (run c3Trace).getD initState

def c3S2 : ClientState :=
  (finishRoundErrStep (processIfNeededStart c3S).1 0 none "Network Error" none).getD initState

theorem claim_nonfatal_round_preserves_keys_witness :
    (processIfNeededStart c3S).2 = true ∧
    ((0 : Nat) ∈ liveKeys c3S2 ↔ (0 : Nat) ∈ liveKeys c3S) ∧
    c3S2.settled = c3S.settled :=
  ⟨rfl,
   (claim_nonfatal_round_preserves_keys c3S rfl none "Network Error" none
     (by simp) (by simp) c3S2 rfl).1 0,
   (claim_nonfatal_round_preserves_keys c3S rfl none "Network Error" none
     (by simp) (by simp) c3S2 rfl).2⟩

/-- The interval-adoption rule actually implemented on the handshake path
(`initializeConnection`, lines 413-416): non-numeric and non-positive
values are ignored, every other number is adopted after clamping. -/
def handshakeIntervalRule (prior : Int) (iv : Option WireInterval) : Int :=
  match iv with
  | some (.num n) => if 0 < n then clampRate n else prior
  | _ => prior

/-- The interval-adoption rule actually implemented on the batch path
(`handleBatchResponse`, lines 549-551): non-numeric values are ignored,
every number - including non-positive ones - is adopted after clamping. -/
def batchIntervalRule (prior : Int) (iv : Option WireInterval) : Int :=
  match iv with
  | some (.num n) => clampRate n
  | _ => prior

/-- Connect with suggested interval 1000 (adopted), then reconnect with
suggested interval 100. -/
def c4Trace : List Event :=
  [.setKey (some "k") (.ok (some (.num 1000))),
   .setKey (some "k") (.ok (some (.num 100)))]

/-- **C4 counterexample.**  With a prior poll interval of 1000 ms, a
handshake suggesting 100 ms (outside [500, 10000]) is *not* ignored as
the claim states: the interval becomes 500 (the clamped value), not the
prior 1000. -/
theorem claim_interval_clamp_counterexample :
    Option.map ClientState.pollRate
      (run [Event.setKey (some "k") (.ok (some (.num 1000)))]) = some 1000 ∧
    Option.map ClientState.pollRate (run c4Trace) = some 500 :=
  ⟨rfl, rfl⟩

/-- **C4 amended.**  Non-numeric `intervalMs` values are ignored on both
paths; the handshake path additionally ignores non-positive numbers; any
other number is adopted after clamping into [500, 10000] - out-of-range
values are clamped to the nearer bound, not ignored.  The batch path
differs from the handshake path exactly in also adopting (and clamping)
non-positive numbers, e.g. 0 with prior 1000: batch gives 500, handshake
keeps 1000. -/
theorem claim_interval_adoption_amended :
    (∀ (s : ClientState) (iv : Option WireInterval),
      (adoptInterval s iv).pollRate = batchIntervalRule s.pollRate iv) ∧
    (∀ (s : ClientState) (k : String) (iv : Option WireInterval), ¬ jsTrim k = "" →
      (setKeyStep s (some k) (.ok iv)).1.pollRate = handshakeIntervalRule s.pollRate iv) ∧
    batchIntervalRule 1000 (some (.num 0)) = 500 ∧
    handshakeIntervalRule 1000 (some (.num 0)) = 1000 := by
  refine ⟨?_, ?_, rfl, rfl⟩
  · intro s iv
    unfold adoptInterval batchIntervalRule
    rcases iv with _ | iv
    · rfl
    · rcases iv with n | _
      · rfl
      · rfl
  · intro s k iv ht
    unfold setKeyStep handshakeIntervalRule
    simp only [ht, if_false]
    rcases iv with _ | iv
    · rfl
    · rcases iv with n | _
      · by_cases hn : (0 : Int) < n <;>
          · simp only [hn, if_true, if_false]
            try rfl
      · rfl

theorem claim_interval_adoption_amended_witness :
    ¬ jsTrim "k" = "" ∧
    (setKeyStep initState (some "k") (.ok (some (.num 100)))).1.pollRate =
      handshakeIntervalRule initState.pollRate (some (.num 100)) ∧
    (adoptInterval initState (some (.num 20000))).pollRate =
      batchIntervalRule initState.pollRate (some (.num 20000)) :=
  ⟨by decide,
   claim_interval_adoption_amended.2.1 initState "k" (some (.num 100)) (by decide),
   claim_interval_adoption_amended.1 initState (some (.num 20000))⟩

def c6Trace : List Event := [.setKey (some "bad") (.err404 none)]

/-- **C6 counterexample.**  After `setKey("bad")` receives a 404, the
recorded last error is the thrown signal "KEY_NOT_FOUND", not the
user-facing session-not-found message: `initializeConnection` writes
"Сессия не найдена. Создайте ключ заново." but `setKey`'s catch block
(line 363) immediately overwrites it with the rethrown error's message. -/
theorem claim_setKey404_counterexample :
    Option.map ClientState.error (run c6Trace) = some (some "KEY_NOT_FOUND") ∧
    ("KEY_NOT_FOUND" : String) ≠ "Сессия не найдена. Создайте ключ заново." :=
  ⟨rfl, by decide⟩

/-- **C6 amended.**  If `setKey` is called with a (non-blank) key and the
handshake responds with HTTP 404, the returned promise rejects with
message "KEY_NOT_FOUND", the connection is marked broken, the stored key
is cleared, and `isConnected` is false afterwards; the error recorded as
the last error is "KEY_NOT_FOUND" (the user-facing session-not-found
message is written during the handshake but overwritten by `setKey`'s
generic error handler before the call returns). -/
theorem claim_setKey404_amended (s : ClientState) (k : String)
    (serverMsg : Option String) (hk : ¬ jsTrim k = "") :
    (setKeyStep s (some k) (.err404 serverMsg)).2 =
      SetKeyOutcome.rejected "KEY_NOT_FOUND" ∧
    (setKeyStep s (some k) (.err404 serverMsg)).1.broken = true ∧
    (setKeyStep s (some k) (.err404 serverMsg)).1.key = none ∧
    (setKeyStep s (some k) (.err404 serverMsg)).1.error = some "KEY_NOT_FOUND" ∧
    isConnected (setKeyStep s (some k) (.err404 serverMsg)).1 = false := by
  unfold setKeyStep
  simp [hk, isConnected, errTruthy, keyTruthy]

theorem claim_setKey404_amended_witness :
    ¬ jsTrim "bad" = "" ∧
    ((setKeyStep initState (some "bad") (.err404 none)).2 =
      SetKeyOutcome.rejected "KEY_NOT_FOUND" ∧
    (setKeyStep initState (some "bad") (.err404 none)).1.broken = true ∧
    (setKeyStep initState (some "bad") (.err404 none)).1.key = none ∧
    (setKeyStep initState (some "bad") (.err404 none)).1.error = some "KEY_NOT_FOUND" ∧
    isConnected (setKeyStep initState (some "bad") (.err404 none)).1 = false) :=
  ⟨by decide, claim_setKey404_amended initState "bad" none (by decide)⟩

theorem adoptInterval_pollRate (s : ClientState) (iv : Option WireInterval) :
    (adoptInterval s iv).pollRate = batchIntervalRule s.pollRate iv := by
  unfold adoptInterval batchIntervalRule
  rcases iv with _ | iv
  · rfl
  · rcases iv with n | _ <;> rfl

/-- The poll rate after a successful round completion is the batch
adoption rule applied to the response's `intervalMs`. -/
theorem finishRoundOk_pollRate (s : ClientState) (i : Nat) (resp : BatchResp)
    (s2 : ClientState) (h : finishRoundOkStep s i resp = some s2) :
    s2.pollRate = batchIntervalRule s.pollRate resp.intervalMs := by
  unfold finishRoundOkStep at h
  cases hri : s.inflight.get? i with
  | none =>
    rw [hri] at h
    exact absurd h (by simp)
  | some r =>
    rw [hri] at h
    simp only [] at h
    injection h with h
    rw [← h]
    show (foldCreated _ _ _).pollRate = _
    rw [(foldCreated_fields _ _ _).2.2.2.2.2.2.1,
        (resRel_foldResults _ _).pollRate_eq, adoptInterval_pollRate]

theorem clampRate_range (n : Int) : 500 ≤ clampRate n ∧ clampRate n ≤ 10000 := by
  unfold clampRate
  constructor
  · exact le_max_left _ _
  · apply max_le
    · norm_num
    · exact min_le_left _ _

/-- Every event either keeps the poll rate or sets it to a clamped value. -/
theorem pollRate_step (s : ClientState) (e : Event) (s2 : ClientState)
    (hstep : applyEvent s e = some s2) :
    s2.pollRate = s.pollRate ∨ ∃ n, s2.pollRate = clampRate n := by
  cases e with
  | exec c =>
    injection hstep with hstep
    rw [← hstep]
    unfold executeOrFallbackStep
    by_cases hg : (s.broken || !keyTruthy s.key) = true
    · rw [if_pos hg]
      exact Or.inl rfl
    · rw [if_neg hg]
      exact Or.inl rfl
  | setKey key hs =>
    injection hstep with hstep
    rw [← hstep]
    unfold setKeyStep
    rcases key with _ | k
    · exact Or.inl rfl
    · by_cases ht : jsTrim k = ""
      · rcases hs with iv | sm | m <;> simp only [ht, if_true] <;> exact Or.inl rfl
      · rcases hs with iv | sm | m
        · simp only [ht, if_false]
          rcases iv with _ | iv
          · exact Or.inl rfl
          · rcases iv with n | _
            · by_cases hn : (0 : Int) < n
              · simp only [hn, if_true]
                exact Or.inr ⟨n, rfl⟩
              · simp only [hn, if_false]
                exact Or.inl rfl
            · exact Or.inl rfl
        · simp only [ht, if_false]
          exact Or.inl rfl
        · simp only [ht, if_false]
          exact Or.inl rfl
  | poll =>
    injection hstep with hstep
    rw [← hstep]
    unfold processIfNeededStart
    by_cases h1 : (s.broken || s.processing || !keyTruthy s.key) = true
    · rw [if_pos h1]
      exact Or.inl rfl
    · rw [if_neg h1]
      by_cases h2 : (s.pending.length = 0 && s.active.length = 0 && s.completed.length = 0) = true
      · rw [if_pos h2]
        exact Or.inl rfl
      · rw [if_neg h2]
        exact Or.inl rfl
  | roundOk i resp =>
    have hpr := finishRoundOk_pollRate s i resp s2 hstep
    rw [hpr]
    unfold batchIntervalRule
    rcases resp.intervalMs with _ | iv2
    · exact Or.inl rfl
    · rcases iv2 with n | _
      · exact Or.inr ⟨n, rfl⟩
      · exact Or.inl rfl
  | roundErr i status errMsg serverMsg =>
    unfold applyEvent finishRoundErrStep at hstep
    simp only [] at hstep
    cases hri : s.inflight.get? i with
    | none =>
      rw [hri] at hstep
      exact absurd hstep (by simp)
    | some r =>
      rw [hri] at hstep
      simp only [] at hstep
      by_cases h404 : status = some 404
      · have hcrit : (decide (status = some 404) || decide (status = some 500)) = true := by
          simp [h404]
        rw [if_pos hcrit, if_pos h404] at hstep
        injection hstep with hstep
        rw [← hstep]
        exact Or.inl rfl
      · by_cases h500 : status = some 500
        · have hcrit : (decide (status = some 404) || decide (status = some 500)) = true := by
            simp [h500]
          rw [if_pos hcrit, if_neg h404] at hstep
          injection hstep with hstep
          rw [← hstep]
          exact Or.inl rfl
        · have hcrit : (decide (status = some 404) || decide (status = some 500)) = false := by
            simp [h404, h500]
          rw [hcrit] at hstep
          rw [if_neg (by simp : ¬ (false : Bool) = true)] at hstep
          injection hstep with hstep
          rw [← hstep]
          exact Or.inl rfl

theorem pollRate_invariant (s : ClientState) (h : ReachP AnyEv s) :
    500 ≤ s.pollRate ∧ s.pollRate ≤ 10000 := by
  induction h with
  | init =>
    constructor <;> norm_num [initState]
  | step hre hP hstep ih =>
    rcases pollRate_step _ _ _ hstep with h1 | ⟨n, h1⟩
    · rw [h1]
      exact ih
    · rw [h1]
      exact clampRate_range n

/-- **C5.**  The effective poll interval always lies within [500, 10000]:
it is 500 initially, and in every reachable state - whatever intervalMs
values the handshake or batch responses suggested, including values in
(-inf, 499] or [10001, inf) - it remains within the range, because every
adoption clamps. -/
theorem claim_pollRate_always_clamped (s : ClientState) (h : ReachP AnyEv s) :
    initState.pollRate = 500 ∧ 500 ≤ s.pollRate ∧ s.pollRate ≤ 10000 :=
  ⟨rfl, pollRate_invariant s h⟩

def c5S1 : ClientState :=
  (run [Event.setKey (some "k") (.ok (some (.num 20000)))]).getD initState

theorem claim_pollRate_always_clamped_witness :
    (initState.pollRate = 500 ∧ 500 ≤ c5S1.pollRate ∧ c5S1.pollRate ≤ 10000) ∧
    c5S1.pollRate = 10000 :=
  ⟨claim_pollRate_always_clamped c5S1
    (@ReachP.step AnyEv initState (Event.setKey (some "k") (.ok (some (.num 20000)))) c5S1
      ReachP.init trivial rfl),
   rfl⟩

theorem lookup_append_right {m : List (Nat × α)} {k : Nat} (h : lookup m k = none) (v : α) :
    lookup (m ++ [(k, v)]) k = some v := by
  induction m with
  | nil => simp [lookup]
  | cons p rest ih =>
    rw [List.cons_append]
    unfold lookup at h ⊢
    by_cases hp : p.1 = k
    · rw [if_pos hp] at h
      exact absurd h (by simp)
    · rw [if_neg hp] at h ⊢
      exact ih h

theorem lookup_settlePut_self {st : List (Nat × Settlement)} {k : Nat} {v : Settlement}
    (h : lookup st k = none) : lookup (settlePut st k v) k = some v := by
  unfold settlePut
  rw [if_neg (by rw [h]; simp)]
  exact lookup_append_right h v

/-- `handleResultEntry` on a "done", non-error result for an active key:
resolve with the parsed result, move the key from active to completed. -/
theorem handleResultEntry_done (s : ClientState) (k : Nat) (res : Option Value)
    (req : Request) (hol : lookup s.active k = some req) :
    handleResultEntry s ⟨k, "done", res, false⟩ =
      { s with
        settled := settlePut s.settled k (.resolved (parseResult res)),
        active := mapDelete s.active k,
        completed := setAdd s.completed k } := by
  unfold handleResultEntry
  simp only []
  rw [hol]
  simp only []
  simp only [if_true, Bool.false_eq_true, if_false]

/-- **C7.**  For a server-reported result with status "done" and no error
flag for a requestKey in the active queue (with an unsettled promise), the
caller's promise is resolved with the parsed result - a string that is
valid JSON is resolved with the JSON-parsed value, e.g. the string "42"
yields the number 42, otherwise the value is passed through verbatim - and
the requestKey moves from active to completed. -/
theorem claim_result_parsing_resolution (s : ClientState) (i : Nat) (r : Round)
    (k : Nat) (res : Option Value) (iv : Option WireInterval) (s2 : ClientState)
    (hr : s.inflight.get? i = some r)
    (hk : k ∈ actK s) (huns : lookup s.settled k = none)
    (hstep : finishRoundOkStep s i
      { intervalMs := iv, results := [⟨k, "done", res, false⟩], created := [] } =
      some s2) :
    lookup s2.settled k = some (.resolved (parseResult res)) ∧
    k ∉ actK s2 ∧ k ∈ s2.completed ∧
    parseResult (some (.vStr "42")) = some (.vNum 42) := by
  unfold finishRoundOkStep at hstep
  rw [hr] at hstep
  simp only [] at hstep
  injection hstep with hstep
  subst hstep
  set sB : ClientState :=
    adoptInterval { s with inflight := removeIdx s.inflight i } iv with hsB
  have hfb := adoptInterval_fields { s with inflight := removeIdx s.inflight i } iv
  have hBact : sB.active = s.active := hfb.2.1
  have hBset : sB.settled = s.settled := hfb.2.2.2.1
  have hsome : (lookup s.active k).isSome = true := lookup_isSome_iff.mpr hk
  rcases hol : lookup s.active k with _ | req
  · rw [hol] at hsome
    simp at hsome
  · have hred := handleResultEntry_done sB k res req (by rw [hBact]; exact hol)
    simp only [handleBatchResponse, foldCreated, List.foldl_cons, List.foldl_nil]
    rw [← hsB]
    rw [hred]
    refine ⟨?_, ?_, ?_, rfl⟩
    · show lookup (settlePut sB.settled k (Settlement.resolved (parseResult res))) k = _
      rw [hBset]
      exact lookup_settlePut_self huns
    · show k ∉ keysOf (mapDelete sB.active k)
      intro hmem
      exact (mem_keysOf_mapDelete.mp hmem).2 rfl
    · show k ∈ setAdd sB.completed k
      exact mem_setAdd.mpr (Or.inr rfl)

/-- Scenario C's schedule: connect, enqueue one call, the first batch
round acknowledges it as created/pending (moving it to active), a second
round is started to poll its status. -/
def c7Trace : List Event :=
  [.setKey (some "k") (.ok none), .exec ⟨"m", []⟩, .poll,
   .roundOk 0 ⟨none, [], [⟨0, "pending"⟩]⟩, .poll]

def c7S : ClientState := (run c7Trace).getD initState

def c7Resp : BatchResp := ⟨none, [⟨0, "done", some (.vStr "42"), false⟩], []⟩

def c7S2 : ClientState := (finishRoundOkStep c7S 0 c7Resp).getD initState

theorem claim_result_parsing_resolution_witness :
    (0 ∈ actK c7S) ∧ lookup c7S.settled 0 = none ∧
    (lookup c7S2.settled 0 = some (.resolved (parseResult (some (.vStr "42")))) ∧
     0 ∉ actK c7S2 ∧ 0 ∈ c7S2.completed ∧
     parseResult (some (.vStr "42")) = some (.vNum 42)) :=
  ⟨by decide, rfl,
   claim_result_parsing_resolution c7S 0 ⟨[], []⟩ 0 (some (.vStr "42")) none c7S2
     rfl (by decide) rfl rfl⟩

theorem execStep_shape (s : ClientState) (c : ApiCall) :
    (executeOrFallbackStep s c).1.inflight = s.inflight ∧
    (executeOrFallbackStep s c).1.processing = s.processing := by
  unfold executeOrFallbackStep
  by_cases hg : (s.broken || !keyTruthy s.key) = true
  · rw [if_pos hg]
    exact ⟨rfl, rfl⟩
  · rw [if_neg hg]
    exact ⟨rfl, rfl⟩

theorem setKeyStep_shape (s : ClientState) (key : Option String) (hs : Handshake) :
    (setKeyStep s key hs).1.inflight = s.inflight ∧
    (setKeyStep s key hs).1.processing = false := by
  unfold setKeyStep
  rcases key with _ | k
  · exact ⟨rfl, rfl⟩
  · by_cases ht : jsTrim k = ""
    · rcases hs with iv | sm | m <;> simp only [ht, if_true] <;> exact ⟨rfl, rfl⟩
    · rcases hs with iv | sm | m
      · simp only [ht, if_false]
        rcases iv with _ | iv
        · exact ⟨rfl, rfl⟩
        · rcases iv with n | _
          · by_cases hn : (0 : Int) < n
            · simp only [hn, if_true]
              exact ⟨rfl, rfl⟩
            · simp only [hn, if_false]
              exact ⟨rfl, rfl⟩
          · exact ⟨rfl, rfl⟩
      · simp only [ht, if_false]
        exact ⟨rfl, rfl⟩
      · simp only [ht, if_false]
        exact ⟨rfl, rfl⟩

theorem processIfNeededStart_shape (s : ClientState) :
    processIfNeededStart s = (s, false) ∨
    (s.processing = false ∧ (processIfNeededStart s).1.processing = true ∧
     (processIfNeededStart s).1.inflight =
       ({ batchToSend := s.pending, completedSnapshot := s.completed } : Round) :: s.inflight ∧
     (processIfNeededStart s).2 = true) := by
  unfold processIfNeededStart
  by_cases h1 : (s.broken || s.processing || !keyTruthy s.key) = true
  · rw [if_pos h1]
    exact Or.inl rfl
  · rw [if_neg h1]
    by_cases h2 : (s.pending.length = 0 && s.active.length = 0 && s.completed.length = 0) = true
    · rw [if_pos h2]
      exact Or.inl rfl
    · rw [if_neg h2]
      refine Or.inr ⟨?_, rfl, rfl, rfl⟩
      simp only [Bool.or_eq_true, not_or, Bool.not_eq_true] at h1
      exact h1.1.2

theorem finishRoundOk_shape (s : ClientState) (i : Nat) (resp : BatchResp)
    (s2 : ClientState) (h : finishRoundOkStep s i resp = some s2) :
    s2.processing = false ∧ s2.inflight = removeIdx s.inflight i := by
  unfold finishRoundOkStep at h
  cases hri : s.inflight.get? i with
  | none =>
    rw [hri] at h
    exact absurd h (by simp)
  | some r =>
    rw [hri] at h
    simp only [] at h
    injection h with h
    rw [← h]
    refine ⟨rfl, ?_⟩
    show (foldCreated _ _ _).inflight = _
    rw [(foldCreated_fields _ _ _).2.2.1,
        (resRel_foldResults _ _).inflight_eq,
        (adoptInterval_fields _ _).2.2.2.2.1]

theorem finishRoundErr_shape (s : ClientState) (i : Nat) (status : Option Nat)
    (errMsg : String) (serverMsg : Option String) (s2 : ClientState)
    (h : finishRoundErrStep s i status errMsg serverMsg = some s2) :
    s2.processing = false ∧ s2.inflight = removeIdx s.inflight i := by
  unfold finishRoundErrStep at h
  cases hri : s.inflight.get? i with
  | none =>
    rw [hri] at h
    exact absurd h (by simp)
  | some r =>
    rw [hri] at h
    simp only [] at h
    by_cases h404 : status = some 404
    · have hcrit : (decide (status = some 404) || decide (status = some 500)) = true := by
        simp [h404]
      rw [if_pos hcrit, if_pos h404] at h
      injection h with h
      rw [← h]
      exact ⟨rfl, rfl⟩
    · by_cases h500 : status = some 500
      · have hcrit : (decide (status = some 404) || decide (status = some 500)) = true := by
          simp [h500]
        rw [if_pos hcrit, if_neg h404] at h
        injection h with h
        rw [← h]
        exact ⟨rfl, rfl⟩
      · have hcrit : (decide (status = some 404) || decide (status = some 500)) = false := by
          simp [h404, h500]
        rw [hcrit] at h
        rw [if_neg (by simp : ¬ (false : Bool) = true)] at h
        injection h with h
        rw [← h]
        exact ⟨rfl, rfl⟩

/-- The step predicate under which at most one round is ever in flight:
`setKey` is never invoked while a round is outstanding.  (The code's
`resetState` clears the `processing` flag, so a mid-round `setKey`
re-enables `processIfNeeded` and a second round can start while the first
one's POST is still outstanding; see the counterexample.)  All other
events are unconstrained. -/
def NoResetMidRound : ClientState → Event → Prop := fun s e =>
  match e with
  | .setKey _ _ => s.inflight = []
  | _ => True

theorem atMostOne_inflight (s : ClientState) (h : ReachP NoResetMidRound s) :
    s.inflight.length ≤ 1 ∧ (s.processing = true ↔ s.inflight ≠ []) := by
  induction h with
  | init => simp [initState]
  | step hre hP hstep ih =>
    rename_i s e s2
    cases e with
    | exec c =>
      injection hstep with hstep
      rw [← hstep]
      obtain ⟨h1, h2⟩ := execStep_shape s c
      rw [h1, h2]
      exact ih
    | setKey key hs =>
      injection hstep with hstep
      rw [← hstep]
      obtain ⟨h1, h2⟩ := setKeyStep_shape s key hs
      have hnil : s.inflight = [] := hP
      rw [h1, h2, hnil]
      simp
    | poll =>
      injection hstep with hstep
      rw [← hstep]
      rcases processIfNeededStart_shape s with h1 | ⟨hproc, h2, h3, _⟩
      · rw [h1]
        exact ih
      · have hnil : s.inflight = [] := by
          by_contra hne
          rw [ih.2.mpr hne] at hproc
          exact absurd hproc (by simp)
        rw [h2, h3, hnil]
        simp
    | roundOk i resp =>
      obtain ⟨h1, h2⟩ := finishRoundOk_shape s i resp s2 hstep
      have hr : s.inflight.get? i ≠ none := by
        intro hnone
        unfold applyEvent finishRoundOkStep at hstep
        simp only [] at hstep
        rw [hnone] at hstep
        exact absurd hstep (by simp)
      have hlt : i < s.inflight.length := by
        by_contra hge
        exact hr (List.get?_eq_none.mpr (by omega))
      have hle := ih.1
      have hi0 : i = 0 := by omega
      obtain ⟨a, ha⟩ := List.length_eq_one.mp (by omega : s.inflight.length = 1)
      have hrem : removeIdx s.inflight i = [] := by
        rw [ha, hi0]
        rfl
      rw [h1, h2, hrem]
      simp
    | roundErr i status errMsg serverMsg =>
      obtain ⟨h1, h2⟩ := finishRoundErr_shape s i status errMsg serverMsg s2 hstep
      have hr : s.inflight.get? i ≠ none := by
        intro hnone
        unfold applyEvent finishRoundErrStep at hstep
        simp only [] at hstep
        rw [hnone] at hstep
        exact absurd hstep (by simp)
      have hlt : i < s.inflight.length := by
        by_contra hge
        exact hr (List.get?_eq_none.mpr (by omega))
      have hle := ih.1
      have hi0 : i = 0 := by omega
      obtain ⟨a, ha⟩ := List.length_eq_one.mp (by omega : s.inflight.length = 1)
      have hrem : removeIdx s.inflight i = [] := by
        rw [ha, hi0]
        rfl
      rw [h1, h2, hrem]
      simp

/-- A real schedule with two batch rounds in flight simultaneously:
connect, enqueue, start a round; while its POST is outstanding, `setKey`
resets the client (clearing the `processing` flag), a new call is
enqueued and its `processIfNeeded` starts a second round.  Both rounds'
network requests are now outstanding at once. -/
def c8Trace : List Event :=
  [.setKey (some "k") (.ok none), .exec ⟨"m", []⟩, .poll,
   .setKey (some "k2") (.ok none), .exec ⟨"m", []⟩, .poll]

def inflightCount (s : ClientState) : Nat := s.inflight.length

/-- **C8 counterexample.**  "At most one batch round is ever in flight"
fails: after a mid-round `setKey` (whose `resetState` clears
`processing`), a second round starts while the first is still
outstanding - the state reached by `c8Trace` has two in-flight rounds. -/
theorem claim_single_round_counterexample :
    Option.map inflightCount (run c8Trace) = some 2 := rfl

/-- **C8 amended.**  `processIfNeeded` is a no-op (same state, no round
started) when processing is already set, the connection is broken, no
key is set, or all three queues are empty; otherwise it sets `processing`
and starts exactly one round; round completion - success or failure -
always clears `processing`.  Consequently at most one batch round is in
flight at any time *provided `setKey` is never invoked while a round is
in flight* (a mid-round `setKey` clears `processing` via `resetState`
and lets a second round start, as the counterexample shows). -/
theorem claim_processIfNeeded_amended :
    (∀ s : ClientState,
      s.processing = true ∨ s.broken = true ∨ keyTruthy s.key = false →
      processIfNeededStart s = (s, false)) ∧
    (∀ s : ClientState, s.pending = [] → s.active = [] → s.completed = [] →
      processIfNeededStart s = (s, false)) ∧
    (∀ s : ClientState, (processIfNeededStart s).2 = true →
      (processIfNeededStart s).1.processing = true ∧
      (processIfNeededStart s).1.inflight =
        ({ batchToSend := s.pending, completedSnapshot := s.completed } : Round) ::
          s.inflight) ∧
    (∀ (s : ClientState) (i : Nat) (resp : BatchResp) (s2 : ClientState),
      finishRoundOkStep s i resp = some s2 → s2.processing = false) ∧
    (∀ (s : ClientState) (i : Nat) (status : Option Nat) (errMsg : String)
      (serverMsg : Option String) (s2 : ClientState),
      finishRoundErrStep s i status errMsg serverMsg = some s2 → s2.processing = false) ∧
    (∀ s : ClientState, ReachP NoResetMidRound s → s.inflight.length ≤ 1) := by
  refine ⟨?_, ?_, ?_, ?_, ?_, ?_⟩
  · intro s h
    unfold processIfNeededStart
    rw [if_pos ?_]
    rcases h with h | h | h <;> simp [h]
  · intro s hp ha hc
    unfold processIfNeededStart
    by_cases h1 : (s.broken || s.processing || !keyTruthy s.key) = true
    · rw [if_pos h1]
    · rw [if_neg h1, if_pos (by simp [hp, ha, hc])]
  · intro s h
    rcases processIfNeededStart_shape s with h1 | ⟨_, h2, h3, _⟩
    · rw [h1] at h
      exact absurd h (by simp)
    · exact ⟨h2, h3⟩
  · intro s i resp s2 h
    exact (finishRoundOk_shape s i resp s2 h).1
  · intro s i status errMsg serverMsg s2 h
    exact (finishRoundErr_shape s i status errMsg serverMsg s2 h).1
  · intro s h
    exact (atMostOne_inflight s h).1

/-- The state of a busy client (a round in flight). -/
def c8BusyS : ClientState := (run (c8Trace.take 3)).getD initState

/-- A connected client with one pending call. -/
def c8ReadyS : ClientState := (run (c8Trace.take 2)).getD initState

def c8ReachS : ClientState :=
  (run [Event.setKey (some "k") (.ok none)]).getD initState

theorem claim_processIfNeeded_amended_witness :
    (c8BusyS.processing = true ∧ processIfNeededStart c8BusyS = (c8BusyS, false)) ∧
    processIfNeededStart initState = (initState, false) ∧
    ((processIfNeededStart c8ReadyS).2 = true ∧
     (processIfNeededStart c8ReadyS).1.processing = true ∧
     (processIfNeededStart c8ReadyS).1.inflight =
       ({ batchToSend := c8ReadyS.pending, completedSnapshot := c8ReadyS.completed } : Round) ::
         c8ReadyS.inflight) ∧
    ((finishRoundOkStep c8BusyS 0 ⟨none, [], [⟨0, "pending"⟩]⟩).getD initState).processing
      = false ∧
    ((finishRoundErrStep c8BusyS 0 none "Network Error" none).getD initState).processing
      = false ∧
    c8ReachS.inflight.length ≤ 1 := by
  refine ⟨⟨rfl, ?_⟩, ?_, ⟨rfl, ?_⟩, ?_, ?_, ?_⟩
  · exact claim_processIfNeeded_amended.1 c8BusyS (Or.inl rfl)
  · exact claim_processIfNeeded_amended.2.1 initState rfl rfl rfl
  · exact claim_processIfNeeded_amended.2.2.1 c8ReadyS rfl
  · exact claim_processIfNeeded_amended.2.2.2.1 c8BusyS 0 ⟨none, [], [⟨0, "pending"⟩]⟩ _ rfl
  · exact claim_processIfNeeded_amended.2.2.2.2.1 c8BusyS 0 none "Network Error" none _ rfl
  · exact claim_processIfNeeded_amended.2.2.2.2.2 c8ReachS
      (@ReachP.step NoResetMidRound initState (Event.setKey (some "k") (.ok none)) c8ReachS
        ReachP.init rfl rfl)

/-- A real schedule with an adversarial batch response: the server
acknowledges the same sent requestKey twice, first with a non-"pending"
status (which rejects the caller promise), then with "pending" (which
moves the already-settled key into the active queue). -/
def c2Trace : List Event :=
  [.setKey (some "k") (.ok none), .exec ⟨"m", []⟩, .poll,
   .roundOk 0 ⟨none, [], [⟨0, "bogus"⟩, ⟨0, "pending"⟩]⟩]

def c2S : ClientState := (run c2Trace).getD initState

/-- **C2 counterexample.**  In the state reached by `c2Trace`, requestKey
0 is in the active queue *and* its promise is already settled: the key
belongs to two of the claim's four classes at once, and a settled key has
(re-)entered active - both parts of the claim fail for a server response
whose `created` list mentions a requestKey twice. -/
theorem claim_queue_partition_counterexample :
    (run c2Trace).isSome = true ∧
    (0 ∈ actK c2S) ∧ isSettled c2S 0 = true ∧
    ¬ classifiedExactlyOnce c2S 0 := by
  refine ⟨rfl, by decide, rfl, ?_⟩
  unfold classifiedExactlyOnce
  decide

/-- **C2 amended.**  Provided every successful batch response's `created`
list contains exactly one acknowledgement for each requestKey of the
round's sent batch (pairwise-distinct entries covering the batch - the
predicate `CreatedOK`), every requestKey ever created by
`executeOrFallback` belongs, in every reachable state, to exactly one of
{effective pending (live queue or in-flight snapshot), active, effective
completed, terminal (promise settled, key dropped)}; and once a key's
promise is settled it never re-enters pending or active on any further
step. -/
theorem claim_queue_partition_amended (s : ClientState) (h : ReachP CreatedOK s) :
    (∀ k, k < s.nextKey → classifiedExactlyOnce s k) ∧
    (∀ (e : Event) (s2 : ClientState), CreatedOK s e → applyEvent s e = some s2 →
      ∀ k, isSettled s k = true → k ∉ pendK s2 ∧ k ∉ actK s2) := by
  have hInv := inv_reach s h
  constructor
  · intro k hk
    exact inv_classified s hInv k hk
  · intro e s2 hP hstep k hset
    have hInv2 := inv_step s e hP s2 hstep hInv
    have hset2 := settled_mono_step s e s2 hstep k hset
    constructor
    · intro hmem
      exact hInv2.pendUns k hmem hset2
    · intro hmem
      exact hInv2.actUns k hmem hset2

def c2wTrace : List Event := [.setKey (some "k") (.ok none), .exec ⟨"m", []⟩]

def c2wS1 : ClientState := (run [Event.setKey (some "k") (.ok none)]).getD initState

def c2wS : ClientState := (run c2wTrace).getD initState

theorem claim_queue_partition_amended_witness :
    0 < c2wS.nextKey ∧ classifiedExactlyOnce c2wS 0 :=
  ⟨by decide,
   (claim_queue_partition_amended c2wS
     (@ReachP.step CreatedOK c2wS1 (Event.exec ⟨"m", []⟩) c2wS
       (@ReachP.step CreatedOK initState (Event.setKey (some "k") (.ok none)) c2wS1
         ReachP.init trivial rfl)
       trivial rfl)).1 0 (by decide)⟩

end KeyBridge
